import Mathlib

/-
Verification of the execution-queue and dependency engine of the todotracker
repository (src/src/crud.py and src/src/db.py).

The embedding models the database state as a list of todo rows and a list of
dependency rows.  Only the columns that the queue/dependency engine reads or
writes are modelled (id, status, queue, task_size, parent_id for todos;
id, todo_id, depends_on_id for dependency rows).  Columns such as title,
description, tags, notes, timestamps and priority metadata are never consulted
by the queue or dependency logic and are omitted.  SQLAlchemy sessions commit
at the points marked in crud.py; since every modelled operation runs its reads
and writes inside one call, the state-passing functions below correspond to
one committed operation each.
-/

namespace TodoTracker

/-- Task status values (class TodoStatus in src/db.py). -/
inductive TodoStatus where
  | pending
  | in_progress
  | completed
  | cancelled
deriving DecidableEq

/-- A row of the todos table (class Todo in src/db.py), restricted to the
columns the queue and dependency engine uses.  queue = 0 means not queued;
positive values are 1-based execution ranks. -/
structure Todo where
  id : Nat
  status : TodoStatus
  queue : Nat
  task_size : Option Nat
  parent_id : Option Nat
deriving DecidableEq

/-- A row of the todo_dependencies table (class TodoDependency in src/db.py):
the todo with id todo_id depends on the todo with id depends_on_id. -/
structure Dep where
  id : Nat
  todo_id : Nat
  depends_on_id : Nat
deriving DecidableEq

/-- The database state: todo rows and dependency rows, together with the
autoincrement counters for the two primary keys. -/
structure DB where
  todos : List Todo
  deps : List Dep
  nextTodoId : Nat
  nextDepId : Nat
deriving DecidableEq

/-- crud.py _is_queue_relevant: queue only applies to active work
(QUEUE_RELEVANT_STATUSES = {PENDING, IN_PROGRESS}). -/
def is_queue_relevant : TodoStatus → Bool
  | .pending => true
  | .in_progress => true
  | .completed => false
  | .cancelled => false

/-- crud.py get_todo: point lookup by primary key (first row with this id). -/
def get_todo (db : DB) (todo_id : Nat) : Option Todo :=
  db.todos.find? (fun t => t.id == todo_id)

/-- The filter `queue > 0 AND status IN (pending, in_progress)` used by the
queue helpers in crud.py. -/
def relevant_queued (t : Todo) : Bool :=
  decide (0 < t.queue) && is_queue_relevant t.status

/-- The `ORDER BY queue ASC, id ASC` comparison used by get_queued_todos. -/
def queue_le (t u : Todo) : Prop :=
  t.queue < u.queue ∨ (t.queue = u.queue ∧ t.id ≤ u.id)

instance : DecidableRel queue_le := fun t u => by
  unfold queue_le; exact inferInstance

instance : IsTotal Todo queue_le :=
  ⟨fun t u => by unfold queue_le; omega⟩

instance : IsTrans Todo queue_le :=
  ⟨fun t u v => by unfold queue_le; omega⟩

/-- crud.py get_queued_todos (as called by normalize_queue: no limit and no
task_size bounds): rows with queue > 0 and a queue-relevant status, ordered by
queue ascending with id ascending as tie-break.  The size/limit filters of
get_queued_todos are not modelled because normalize_queue never passes them. -/
def get_queued_todos (db : DB) : List Todo :=
  List.insertionSort queue_le (db.todos.filter relevant_queued)

/-- crud.py get_max_queue: MAX(queue) over the same filter, 0 if none. -/
def get_max_queue (db : DB) : Nat :=
  ((db.todos.filter relevant_queued).map Todo.queue).foldr max 0

/-- One committed UPDATE of a single todo row's queue column, by id. -/
def set_queue (db : DB) (todo_id q : Nat) : DB :=
  { db with
    todos := db.todos.map (fun t => if t.id = todo_id then { t with queue := q } else t) }

/-- The (row id, expected queue value) pairs produced by normalize_queue's
loop: the k-th row of the ordered queued list is assigned value e + k. -/
def assign_expected : List Todo → Nat → List (Nat × Nat)
  | [], _ => []
  | t :: ts, e => (t.id, e) :: assign_expected ts (e + 1)

/-- Apply normalize_queue's per-row write to one row: if the row is in the
assignment list, write its expected value (skipping the write when the stored
value is already correct, as the loop does); other rows are untouched. -/
def apply_assign (assign : List (Nat × Nat)) (t : Todo) : Todo :=
  match assign.lookup t.id with
  | some e => if t.queue = e then t else { t with queue := e }
  | none => t

/-- crud.py normalize_queue: renumber the ordered queued rows to 1..N,
leaving rows whose value is already correct untouched. -/
def normalize_queue (db : DB) : DB :=
  { db with
    todos := db.todos.map (apply_assign (assign_expected (get_queued_todos db) 1)) }

/-- The `changed` flag computed by normalize_queue's loop: true iff some
queued row's stored queue value differs from its expected 1..N value. -/
def normalize_changed (db : DB) : Bool :=
  ((get_queued_todos db).zip (List.range' 1 (get_queued_todos db).length)).any
    (fun p => decide (p.1.queue ≠ p.2))

/-- crud.py add_to_queue.  Missing id: no change (returns None).  Status not
queue-relevant: defensively clear a stale queue value and normalize.  Already
queued: no-op.  Otherwise assign max queue + 1.  The Python return value is
get_todo of the returned state. -/
def add_to_queue (db : DB) (todo_id : Nat) : DB :=
  match get_todo db todo_id with
  | none => db
  | some t =>
    match is_queue_relevant t.status with
    | false => if t.queue = 0 then db else normalize_queue (set_queue db todo_id 0)
    | true =>
      if 0 < t.queue then db
      else set_queue db todo_id (get_max_queue db + 1)

/-- crud.py remove_from_queue: no-op when not queued, otherwise clear the
queue value and normalize. -/
def remove_from_queue (db : DB) (todo_id : Nat) : DB :=
  match get_todo db todo_id with
  | none => db
  | some t => if t.queue = 0 then db else normalize_queue (set_queue db todo_id 0)

/-- The `db.query(Todo).filter(Todo.queue == pos, Todo.status.in_(...)).first()`
lookup used by move_queue_up / move_queue_down. -/
def find_at_pos (db : DB) (pos : Nat) : Option Todo :=
  db.todos.find? (fun u => u.queue == pos && is_queue_relevant u.status)

/-- crud.py move_queue_up.  No-op when missing or queue <= 1; defensive clear
and normalize when the status is no longer queue-relevant (with the dead
queue = 0 re-check kept from the source); when the expected neighbour at
queue-1 is missing, self-heal by normalizing; otherwise swap queue values
with the neighbour (prev.queue := pos first, then todo.queue := pos - 1, as
in the source's tuple assignment). -/
def move_queue_up (db : DB) (todo_id : Nat) : DB :=
  match get_todo db todo_id with
  | none => db
  | some t =>
    if t.queue ≤ 1 then db
    else
      match is_queue_relevant t.status with
      | false => if t.queue = 0 then db else normalize_queue (set_queue db todo_id 0)
      | true =>
        match find_at_pos db (t.queue - 1) with
        | none => normalize_queue db
        | some prev => set_queue (set_queue db prev.id t.queue) todo_id (t.queue - 1)

/-- crud.py move_queue_down.  No-op when missing or not queued; defensive
unconditional clear and normalize when the status is no longer queue-relevant;
when there is no neighbour at queue+1 (bottom of queue or a gap), self-heal by
normalizing; otherwise swap queue values with the neighbour. -/
def move_queue_down (db : DB) (todo_id : Nat) : DB :=
  match get_todo db todo_id with
  | none => db
  | some t =>
    if t.queue = 0 then db
    else
      match is_queue_relevant t.status with
      | false => normalize_queue (set_queue db todo_id 0)
      | true =>
        match find_at_pos db (t.queue + 1) with
        | none => normalize_queue db
        | some next => set_queue (set_queue db next.id t.queue) todo_id (t.queue + 1)

/-- The fields of schemas.TodoCreate that the queue engine consults.  The
schema validates queue >= 0, so the value is a Nat. -/
structure TodoCreate where
  status : TodoStatus
  queue : Nat
  task_size : Option Nat := none
  parent_id : Option Nat := none

/-- crud.py create_todo: the requested queue value is forced to 0 when the
initial status is not queue-relevant; the new row takes the next todo id.
Tags, notes and the text columns do not interact with the queue engine and
are not modelled. -/
def create_todo (db : DB) (c : TodoCreate) : DB × Todo :=
  let requested_queue := if is_queue_relevant c.status then c.queue else 0
  let t : Todo :=
    { id := db.nextTodoId, status := c.status, queue := requested_queue,
      task_size := c.task_size, parent_id := c.parent_id }
  ({ db with todos := db.todos ++ [t], nextTodoId := db.nextTodoId + 1 }, t)

/-- The fields of schemas.TodoUpdate that the queue engine consults (both
optional; exclude_unset semantics).  The other updatable columns (title,
description, tags, progress text, ...) never touch the queue logic. -/
structure TodoUpdate where
  status : Option TodoStatus := none
  queue : Option Nat := none

/-- crud.py update_todo: apply the provided fields, then force queue to 0 if
the (new) status is not queue-relevant, and normalize when this update removed
the row from the queue (queue_cleared or prev_queue > 0 and new queue = 0).
Missing id: no change (returns None). -/
def update_todo (db : DB) (todo_id : Nat) (u : TodoUpdate) : DB :=
  match get_todo db todo_id with
  | none => db
  | some t =>
    let prev_queue := t.queue
    let t1 : Todo := { t with status := u.status.getD t.status, queue := u.queue.getD t.queue }
    let cleared : Bool := !is_queue_relevant t1.status && decide (t1.queue ≠ 0)
    let t2 : Todo := if cleared then { t1 with queue := 0 } else t1
    let db1 : DB :=
      { db with todos := db.todos.map (fun x => if x.id = todo_id then t2 else x) }
    if cleared || (decide (0 < prev_queue) && decide (t2.queue = 0)) then normalize_queue db1
    else db1

/-- One step of collecting the ids deleted by the ORM children cascade
(`cascade="all, delete"` on Todo.children in src/db.py): every not-yet-dead
row whose parent is dead becomes dead. -/
def grow_deleted (todos : List Todo) (ids : List Nat) : List Nat :=
  ids ++
    ((todos.filter (fun t =>
      !ids.contains t.id &&
        match t.parent_id with
        | some p => ids.contains p
        | none => false)).map Todo.id)

/-- The ids removed by delete_todo on this id: the row itself plus its
descendants through parent_id, closed off by iterating one growth step per
row in the table. -/
def deleted_ids (db : DB) (todo_id : Nat) : List Nat :=
  (grow_deleted db.todos)^[db.todos.length] [todo_id]

/-- crud.py delete_todo with the ORM cascades declared in src/db.py: the row
and its descendants are removed, and with them their notes, relations,
attachments and their OUTGOING dependency rows (relationship
Todo.dependencies, foreign key TodoDependency.todo_id, cascade
all, delete-orphan).  No relationship cascades INCOMING dependency rows
(TodoDependency.depends_on_id has no cascading relationship and the schema
declares no ON DELETE action), so those rows survive as dangling references,
and delete_todo never calls normalize_queue. -/
def delete_todo (db : DB) (todo_id : Nat) : DB :=
  match get_todo db todo_id with
  | none => db
  | some _ =>
    let dead := deleted_ids db todo_id
    { db with
      todos := db.todos.filter (fun t => !dead.contains t.id),
      deps := db.deps.filter (fun d => !dead.contains d.todo_id) }

/-- The ids reachable in one hop from current along depends-on edges: the
`db.query(TodoDependency.depends_on_id).filter(TodoDependency.todo_id == current)`
query inside _would_create_cycle. -/
def next_deps (deps : List Dep) (current : Nat) : List Nat :=
  (deps.filter (fun d => d.todo_id == current)).map Dep.depends_on_id

/-- All node ids mentioned by the dependency rows (used only as the
termination measure of the DFS). -/
def dep_nodes (deps : List Dep) : Finset Nat :=
  (deps.map Dep.todo_id).toFinset ∪ (deps.map Dep.depends_on_id).toFinset

/-- The worklist loop of _would_create_cycle in crud.py.  The head of stack is
the element Python's stack.pop() removes next (so the Lean list is the reverse
of the Python list, and stack.extend(next) becomes next.reverse ++ rest);
popping an element equal to target returns True, visited elements are skipped,
and unvisited elements are marked and their successors pushed. -/
def dfs_visit (deps : List Dep) (target : Nat) (stack : List Nat) (visited : Finset Nat) : Bool :=
  match stack with
  | [] => false
  | current :: rest =>
    if current = target then true
    else if current ∈ visited then
      dfs_visit deps target rest visited
    else
      dfs_visit deps target ((next_deps deps current).reverse ++ rest) (insert current visited)
termination_by ((dep_nodes deps \ visited).card, stack.length)
decreasing_by
  · apply Prod.Lex.right
    simp
  · by_cases h : current ∈ dep_nodes deps
    · apply Prod.Lex.left
      rw [Finset.sdiff_insert]
      exact Finset.card_erase_lt_of_mem (Finset.mem_sdiff.mpr ⟨h, by assumption⟩)
    · have h0 : next_deps deps current = [] := by
        by_contra hne
        have hne2 : (deps.filter (fun d => d.todo_id == current)).map Dep.depends_on_id ≠ [] := hne
        rcases List.exists_mem_of_ne_nil _ hne2 with ⟨x, hx⟩
        rcases List.mem_map.mp hx with ⟨d, hd, _⟩
        rcases List.mem_filter.mp hd with ⟨hdd, hdc⟩
        have hdc2 : d.todo_id = current := by simpa using hdc
        refine h (Finset.mem_union_left _ ?_)
        rw [List.mem_toFinset]
        exact hdc2 ▸ List.mem_map_of_mem Dep.todo_id hdd
      have h1 : dep_nodes deps \ insert current visited = dep_nodes deps \ visited := by
        rw [Finset.sdiff_insert, Finset.erase_eq_of_not_mem]
        intro hc
        exact h (Finset.mem_sdiff.mp hc).1
      rw [h0, h1]
      apply Prod.Lex.right
      simp

/-- crud.py _would_create_cycle(start_id, target_id): True iff the DFS from
start_id along depends-on edges reaches target_id. -/
def would_create_cycle (deps : List Dep) (start_id target_id : Nat) : Bool :=
  dfs_visit deps target_id [start_id] ∅

/-- The outcome of create_dependency in crud.py.  Every constructor carries
the session state after the call: the self-dependency ValueError, the
None return for a missing todo and the circular-dependency ValueError all
happen before anything is added to the session, so they carry the input
state unchanged. -/
inductive DepResult where
  | invalid_argument (db : DB)
  | not_found (db : DB)
  | cycle_detected (db : DB) (todo_id depends_on_id : Nat)
  | ok (db : DB) (edge : Dep)
deriving DecidableEq

/-- crud.py create_dependency: reject self-dependencies, require both todos to
exist, raise on a cycle (a path depends_on_id -> ... -> todo_id already
exists), return an identical existing edge idempotently, otherwise insert a
new row. -/
def create_dependency (db : DB) (todo_id depends_on_id : Nat) : DepResult :=
  if todo_id = depends_on_id then .invalid_argument db
  else
    match get_todo db todo_id, get_todo db depends_on_id with
    | some _, some _ =>
      if would_create_cycle db.deps depends_on_id todo_id then
        .cycle_detected db todo_id depends_on_id
      else
        match db.deps.find? (fun d => d.todo_id == todo_id && d.depends_on_id == depends_on_id) with
        | some e => .ok db e
        | none =>
          .ok { db with
                deps := db.deps ++ [{ id := db.nextDepId, todo_id := todo_id,
                                      depends_on_id := depends_on_id }],
                nextDepId := db.nextDepId + 1 }
            { id := db.nextDepId, todo_id := todo_id, depends_on_id := depends_on_id }
    | _, _ => .not_found db

/-- crud.py get_dependencies: the rows where this todo is the dependent. -/
def get_dependencies (db : DB) (todo_id : Nat) : List Dep :=
  db.deps.filter (fun d => d.todo_id == todo_id)

/-- crud.py check_dependencies_met: True iff every prerequisite row whose
prerequisite todo still exists points at a completed todo (missing
prerequisite todos are skipped by the `if depends_on_todo and ...` guard). -/
def check_dependencies_met (db : DB) (todo_id : Nat) : Bool :=
  (get_dependencies db todo_id).all (fun d =>
    match get_todo db d.depends_on_id with
    | some u => decide (u.status = TodoStatus.completed)
    | none => true)

/-- One depends-on edge step: a depends on b via some dependency row. -/
def DepStep (deps : List Dep) (a b : Nat) : Prop :=
  ∃ d ∈ deps, d.todo_id = a ∧ d.depends_on_id = b

/-- A directed path (possibly empty) along depends-on edges. -/
def DepReach (deps : List Dep) (a b : Nat) : Prop :=
  Relation.ReflTransGen (DepStep deps) a b

/-- The rows appearing in the execution queue: queue > 0 and queue-relevant
status, in table order. -/
def relevant_queued_list (db : DB) : List Todo :=
  db.todos.filter relevant_queued

/-- The queue ordering invariant of the spec: the queue values of the rows
with queue > 0 and status in {pending, in_progress} are, as a multiset,
exactly {1, ..., N} where N is the number of such rows. -/
@[reducible] def QueueInv (db : DB) : Prop :=
  ((relevant_queued_list db).map Todo.queue).Perm
    (List.range' 1 (relevant_queued_list db).length)

/-- Rows whose status is not queue-relevant all have queue = 0 (the state
init_db's cleanup SQL establishes, and the lifecycle policy maintains). -/
@[reducible] def CleanIrrelevant (db : DB) : Prop :=
  ∀ t ∈ db.todos, is_queue_relevant t.status = false → t.queue = 0

/-- Primary-key uniqueness of the todos table. -/
@[reducible] def IdsNodup (db : DB) : Prop :=
  (db.todos.map Todo.id).Nodup

/-- A normalized store state: what the cleanup in init_db (src/db.py)
establishes on startup.  Rows with completed/cancelled status carry queue = 0
and the queued active rows are numbered 1..N. -/
@[reducible] def NormalizedState (db : DB) : Prop :=
  CleanIrrelevant db ∧ QueueInv db

/-- The queue-cleanup statements run by init_db in src/db.py: zero the queue
value of every row whose status is not pending/in_progress, then renumber the
queued rows 1..N in (queue, id) order. -/
def init_queue_cleanup (db : DB) : DB :=
  normalize_queue
    { db with
      todos := db.todos.map (fun t =>
        if is_queue_relevant t.status then t else { t with queue := 0 }) }

/-- Well-formedness bundle carried through the queue operations: unique row
ids, clean status-irrelevant rows, and the contiguity invariant. -/
def GoodState (db : DB) : Prop := IdsNodup db ∧ CleanIrrelevant db ∧ QueueInv db

/-- The queue operations quantified over by the contiguity claim: the four
dedicated queue mutations, normalize itself, and a status-only update_todo
(no direct queue write). -/
inductive QueueOp where
  | addQ (todo_id : Nat)
  | removeQ (todo_id : Nat)
  | moveUp (todo_id : Nat)
  | moveDown (todo_id : Nat)
  | norm
  | updateStatus (todo_id : Nat) (st : TodoStatus)

/-- Interpret one queue operation on the store. -/
def apply_op (db : DB) : QueueOp → DB
  | .addQ i => add_to_queue db i
  | .removeQ i => remove_from_queue db i
  | .moveUp i => move_queue_up db i
  | .moveDown i => move_queue_down db i
  | .norm => normalize_queue db
  | .updateStatus i st => update_todo db i { status := some st, queue := none }

/-- Interpret a sequence of queue operations, oldest first. -/
def apply_ops (db : DB) (ops : List QueueOp) : DB :=
  ops.foldl apply_op db

/-- Proof-side companion of normalize_queue's loop: renumber a list of rows
with consecutive values starting at e. -/
def renumber : List Todo → Nat → List Todo
  | [], _ => []
  | t :: ts, e => { t with queue := e } :: renumber ts (e + 1)

-- ---------------------------------------------------------------------------
-- Concrete example stores used to exercise the claims
-- ---------------------------------------------------------------------------

/-- Two queued pending tasks, task 2 depending on task 1. -/
def exDelete : DB :=
  ⟨[⟨1, .pending, 1, none, none⟩, ⟨2, .pending, 2, none, none⟩], [⟨1, 2, 1⟩], 3, 2⟩

/-- One completed task that still carries the stale queue value 1. -/
def exStaleTop : DB :=
  ⟨[⟨1, .completed, 1, none, none⟩], [], 2, 1⟩

/-- A gapped queue (task 2 at position 5) plus an unqueued pending task. -/
def exGapped : DB :=
  ⟨[⟨1, .pending, 0, none, none⟩, ⟨2, .pending, 5, none, none⟩], [], 3, 1⟩

/-- Two unqueued pending tasks and no dependency edges. -/
def exTwoClean : DB :=
  ⟨[⟨1, .pending, 0, none, none⟩, ⟨2, .pending, 0, none, none⟩], [], 3, 1⟩

/-- Two unqueued pending tasks where task 2 already depends on task 1. -/
def exEdge21 : DB :=
  ⟨[⟨1, .pending, 0, none, none⟩, ⟨2, .pending, 0, none, none⟩], [⟨1, 2, 1⟩], 3, 2⟩

/-- Three pending tasks queued 1, 2, 3 (the spec's scenario 2). -/
def exQueueABC : DB :=
  ⟨[⟨1, .pending, 1, none, none⟩, ⟨2, .pending, 2, none, none⟩,
    ⟨3, .pending, 3, none, none⟩], [], 4, 1⟩

/-- One queued pending task (queue position 1 of 1). -/
def exSingleQueued : DB :=
  ⟨[⟨1, .pending, 1, none, none⟩], [], 2, 1⟩

/-- One queued pending task that depends on a task id (7) with no row. -/
def exDangling : DB :=
  ⟨[⟨1, .pending, 1, none, none⟩], [⟨1, 1, 7⟩], 2, 2⟩

/-- One pending task queued at position 3 (a gapped singleton queue). -/
def exPending3 : DB :=
  ⟨[⟨1, .pending, 3, none, none⟩], [], 2, 1⟩

/-- The store exTwoClean after adding the edge (task 1 depends on task 2). -/
def exEdgeNew : DB :=
  ⟨[⟨1, .pending, 0, none, none⟩, ⟨2, .pending, 0, none, none⟩], [⟨1, 1, 2⟩], 3, 2⟩

-- ---------------------------------------------------------------------------
-- Basic lemmas about lookups and single-row updates
-- ---------------------------------------------------------------------------

theorem todo_eta_queue (t : Todo) : { t with queue := t.queue } = t := rfl

theorem apply_assign_eq (a : List (Nat × Nat)) (t : Todo) :
    apply_assign a t =
      match a.lookup t.id with
      | some e => { t with queue := e }
      | none => t := by
  unfold apply_assign
  cases h : a.lookup t.id with
  | none => rfl
  | some e =>
    simp only
    split
    · next he => rw [← he, todo_eta_queue]
    · rfl

theorem apply_assign_id (a : List (Nat × Nat)) (t : Todo) :
    (apply_assign a t).id = t.id := by
  rw [apply_assign_eq]
  cases a.lookup t.id <;> rfl

theorem apply_assign_status (a : List (Nat × Nat)) (t : Todo) :
    (apply_assign a t).status = t.status := by
  rw [apply_assign_eq]
  cases a.lookup t.id <;> rfl

theorem find?_beq_map (f : Todo → Todo) (hf : ∀ t, (f t).id = t.id)
    (l : List Todo) (todo_id : Nat) :
    (l.map f).find? (fun t => t.id == todo_id)
      = Option.map f (l.find? (fun t => t.id == todo_id)) := by
  rw [List.find?_map]
  have hp : ((fun t => t.id == todo_id) ∘ f) = (fun t => t.id == todo_id) := by
    funext t
    simp [Function.comp, hf]
  rw [hp]

theorem get_todo_normalize (db : DB) (todo_id : Nat) :
    get_todo (normalize_queue db) todo_id
      = Option.map (apply_assign (assign_expected (get_queued_todos db) 1))
          (get_todo db todo_id) := by
  unfold normalize_queue get_todo
  exact find?_beq_map _ (apply_assign_id _) _ _

theorem get_todo_set_queue (db : DB) (todo_id q i : Nat) :
    get_todo (set_queue db todo_id q) i
      = Option.map (fun t => if t.id = todo_id then { t with queue := q } else t)
          (get_todo db i) := by
  unfold set_queue get_todo
  refine find?_beq_map _ (fun t => ?_) _ _
  by_cases h : t.id = todo_id <;> simp [h]

theorem get_todo_id {db : DB} {todo_id : Nat} {t : Todo}
    (h : get_todo db todo_id = some t) : t.id = todo_id := by
  have := List.find?_some h
  simpa using this

theorem get_todo_mem {db : DB} {todo_id : Nat} {t : Todo}
    (h : get_todo db todo_id = some t) : t ∈ db.todos :=
  List.mem_of_find?_eq_some h

theorem get_todo_split {db : DB} {todo_id : Nat} {t : Todo}
    (hnd : IdsNodup db) (h : get_todo db todo_id = some t) :
    ∃ l1 l2, db.todos = l1 ++ t :: l2 ∧
      (∀ u ∈ l1, u.id ≠ todo_id) ∧ (∀ u ∈ l2, u.id ≠ todo_id) := by
  rcases List.find?_eq_some.mp h with ⟨hp, l1, l2, hsplit, hl1⟩
  refine ⟨l1, l2, hsplit, fun u hu => by simpa using hl1 u hu, fun u hu h2 => ?_⟩
  have hid : t.id = todo_id := by simpa using hp
  have hnodup : (db.todos.map Todo.id).Nodup := hnd
  rw [hsplit, List.map_append, List.map_cons] at hnodup
  have hmid := (List.nodup_append.mp hnodup).2.1
  rw [List.nodup_cons] at hmid
  refine hmid.1 ?_
  rw [hid, ← h2]
  exact List.mem_map_of_mem Todo.id hu

theorem find?_eq_some_of_mem_nodup :
    ∀ {l : List Todo} {t : Todo} {todo_id : Nat},
      (l.map Todo.id).Nodup → t ∈ l → t.id = todo_id →
      l.find? (fun u => u.id == todo_id) = some t := by
  intro l
  induction l with
  | nil => intro t todo_id _ hmem; cases hmem
  | cons a l ih =>
    intro t todo_id hnd hmem hid
    rcases List.mem_cons.mp hmem with h | h
    · subst h
      simp [List.find?_cons, hid]
    · have hne : a.id ≠ todo_id := by
        intro hcontra
        rw [List.map_cons, List.nodup_cons] at hnd
        exact hnd.1 (hcontra ▸ hid ▸ List.mem_map_of_mem Todo.id h)
      have : (a.id == todo_id) = false := by simpa using hne
      rw [List.find?_cons, this]
      exact ih (by rw [List.map_cons, List.nodup_cons] at hnd; exact hnd.2) h hid

theorem idsNodup_map_of_id_preserving {l : List Todo} {f : Todo → Todo}
    (hf : ∀ t, (f t).id = t.id) (hnd : (l.map Todo.id).Nodup) :
    ((l.map f).map Todo.id).Nodup := by
  rw [List.map_map]
  have : (Todo.id ∘ f) = Todo.id := funext hf
  rw [this]
  exact hnd

-- ---------------------------------------------------------------------------
-- The assignment list built by normalize_queue
-- ---------------------------------------------------------------------------

theorem lookup_assign_not_mem :
    ∀ {q : List Todo} {e : Nat} {i : Nat},
      i ∉ q.map Todo.id → (assign_expected q e).lookup i = none := by
  intro q
  induction q with
  | nil => intro e i _; rfl
  | cons t ts ih =>
    intro e i hmem
    have h1 : i ≠ t.id := by
      intro h; exact hmem (h ▸ List.mem_cons_self _ _)
    have h2 : i ∉ ts.map Todo.id := fun h => hmem (List.mem_cons_of_mem _ h)
    unfold assign_expected
    rw [List.lookup_cons]
    have : (i == t.id) = false := by simpa using h1
    rw [this]
    exact ih h2

theorem apply_assign_not_mem {q : List Todo} {e : Nat} {t : Todo}
    (h : t.id ∉ q.map Todo.id) : apply_assign (assign_expected q e) t = t := by
  rw [apply_assign_eq, lookup_assign_not_mem h]

theorem map_apply_assign :
    ∀ {q : List Todo} {e : Nat}, (q.map Todo.id).Nodup →
      q.map (apply_assign (assign_expected q e)) = renumber q e := by
  intro q
  induction q with
  | nil => intro e _; rfl
  | cons t ts ih =>
    intro e hnd
    rw [List.map_cons, List.nodup_cons] at hnd
    unfold assign_expected renumber
    rw [List.map_cons]
    congr 1
    · rw [apply_assign_eq]
      have : ((t.id, e) :: assign_expected ts (e + 1)).lookup t.id = some e := by
        rw [List.lookup_cons]
        simp
      rw [this]
    · have hpt : ∀ u ∈ ts, apply_assign ((t.id, e) :: assign_expected ts (e + 1)) u
          = apply_assign (assign_expected ts (e + 1)) u := by
        intro u hu
        have hne : u.id ≠ t.id := by
          intro hcontra
          exact hnd.1 (hcontra ▸ List.mem_map_of_mem Todo.id hu)
        unfold apply_assign
        rw [List.lookup_cons]
        have : (u.id == t.id) = false := by simpa using hne
        rw [this]
      rw [List.map_congr_left hpt]
      exact ih hnd.2

theorem renumber_map_queue :
    ∀ (q : List Todo) (e : Nat), (renumber q e).map Todo.queue = List.range' e q.length := by
  intro q
  induction q with
  | nil => intro e; rfl
  | cons t ts ih =>
    intro e
    unfold renumber
    rw [List.map_cons, List.length_cons, List.range'_succ, ih]

theorem renumber_length (q : List Todo) (e : Nat) : (renumber q e).length = q.length := by
  have := congrArg List.length (renumber_map_queue q e)
  simpa using this

theorem renumber_queue_ge :
    ∀ {q : List Todo} {e : Nat} {u : Todo}, u ∈ renumber q e → e ≤ u.queue := by
  intro q
  induction q with
  | nil => intro e u h; cases h
  | cons t ts ih =>
    intro e u h
    rcases List.mem_cons.mp h with h | h
    · subst h; exact le_refl _
    · exact Nat.le_of_succ_le (ih h)

theorem renumber_sorted : ∀ (q : List Todo) (e : Nat), List.Sorted queue_le (renumber q e) := by
  intro q
  induction q with
  | nil => intro e; exact List.sorted_nil
  | cons t ts ih =>
    intro e
    unfold renumber
    rw [List.sorted_cons]
    refine ⟨fun u hu => ?_, ih (e + 1)⟩
    left
    show e < u.queue
    exact Nat.lt_of_succ_le (renumber_queue_ge hu)

theorem renumber_eq_self :
    ∀ {q : List Todo} {e : Nat}, q.map Todo.queue = List.range' e q.length →
      renumber q e = q := by
  intro q
  induction q with
  | nil => intro e _; rfl
  | cons t ts ih =>
    intro e h
    rw [List.map_cons, List.length_cons, List.range'_succ] at h
    have h1 : t.queue = e := by
      have := congrArg (fun l => l.headI) h
      simpa using this
    have h2 : ts.map Todo.queue = List.range' (e + 1) ts.length := by
      have := congrArg List.tail h
      simpa using this
    unfold renumber
    rw [ih h2, ← h1, todo_eta_queue]

-- ---------------------------------------------------------------------------
-- Sorted permutations with duplicate-free keys are unique
-- ---------------------------------------------------------------------------

theorem queue_le_total_thm (a b : Todo) : queue_le a b ∨ queue_le b a := by
  unfold queue_le; omega

theorem queue_le_key_antisymm {a b : Todo} (h1 : queue_le a b) (h2 : queue_le b a) :
    a.queue = b.queue ∧ a.id = b.id := by
  unfold queue_le at h1 h2; omega

theorem map_eq_self_mem :
    ∀ {l : List Todo} {f : Todo → Todo}, l.map f = l → ∀ t ∈ l, f t = t := by
  intro l
  induction l with
  | nil => intro f _ t ht; cases ht
  | cons a l ih =>
    intro f h t ht
    rw [List.map_cons, List.cons_eq_cons] at h
    rcases List.mem_cons.mp ht with rfl | hmem
    · exact h.1
    · exact ih h.2 t hmem

theorem perm_sorted_key_eq :
    ∀ {l m : List Todo}, l.Perm m → List.Sorted queue_le l → List.Sorted queue_le m →
      (l.map (fun t => (t.queue, t.id))).Nodup → l = m := by
  intro l
  induction l with
  | nil =>
    intro m h _ _ _
    exact (h.symm.eq_nil).symm
  | cons a l ih =>
    intro m h hl hm hk
    cases m with
    | nil => exact absurd h.eq_nil (by simp)
    | cons b m2 =>
      have hab : a = b := by
        by_cases hcase : a = b
        · exact hcase
        · have ham : a ∈ b :: m2 := h.subset (List.mem_cons_self _ _)
          have hbl : b ∈ a :: l := h.symm.subset (List.mem_cons_self _ _)
          have ham2 : a ∈ m2 := by
            rcases List.mem_cons.mp ham with h1 | h1
            · exact absurd h1 hcase
            · exact h1
          have hbl2 : b ∈ l := by
            rcases List.mem_cons.mp hbl with h1 | h1
            · exact absurd h1.symm hcase
            · exact h1
          have h1 : queue_le a b := List.rel_of_sorted_cons hl b hbl2
          have h2 : queue_le b a := List.rel_of_sorted_cons hm a ham2
          have hkey := queue_le_key_antisymm h1 h2
          have : a = b :=
            List.inj_on_of_nodup_map hk (List.mem_cons_self a l) hbl
              (by rw [Prod.mk.injEq]; exact hkey)
          exact this
      subst hab
      have htail : l.Perm m2 := h.cons_inv
      have := ih htail hl.of_cons hm.of_cons
        (by rw [List.map_cons, List.nodup_cons] at hk; exact hk.2)
      rw [this]

-- ---------------------------------------------------------------------------
-- Properties of normalize_queue
-- ---------------------------------------------------------------------------

theorem get_queued_perm (db : DB) :
    (get_queued_todos db).Perm (relevant_queued_list db) :=
  List.perm_insertionSort queue_le _

theorem get_queued_sorted (db : DB) : List.Sorted queue_le (get_queued_todos db) :=
  List.sorted_insertionSort queue_le _

theorem mem_get_queued_relevant {db : DB} {t : Todo} (h : t ∈ get_queued_todos db) :
    relevant_queued t = true := by
  have : t ∈ relevant_queued_list db := (get_queued_perm db).subset h
  exact (List.mem_filter.mp this).2

theorem get_queued_ids_nodup {db : DB} (hnd : IdsNodup db) :
    ((get_queued_todos db).map Todo.id).Nodup := by
  have h1 : (relevant_queued_list db).Sublist db.todos := List.filter_sublist _
  have h2 : ((relevant_queued_list db).map Todo.id).Sublist (db.todos.map Todo.id) :=
    h1.map Todo.id
  have h3 : ((relevant_queued_list db).map Todo.id).Nodup := h2.nodup hnd
  exact (((get_queued_perm db).map Todo.id).nodup_iff).mpr h3

theorem lookup_assign_mem :
    ∀ {q : List Todo} {e : Nat} {t : Todo}, (q.map Todo.id).Nodup → t ∈ q →
      ∃ k, (assign_expected q e).lookup t.id = some (e + k) ∧ k < q.length := by
  intro q
  induction q with
  | nil => intro e t _ hmem; cases hmem
  | cons u us ih =>
    intro e t hnd hmem
    rw [List.map_cons, List.nodup_cons] at hnd
    rcases List.mem_cons.mp hmem with rfl | hmem2
    · refine ⟨0, ?_, by simp⟩
      unfold assign_expected
      rw [List.lookup_cons]
      simp
    · have hne : t.id ≠ u.id := by
        intro hcontra
        exact hnd.1 (hcontra ▸ List.mem_map_of_mem Todo.id hmem2)
      rcases @ih (e + 1) t hnd.2 hmem2 with ⟨k, hk, hlt⟩
      refine ⟨k + 1, ?_, by simpa using Nat.succ_lt_succ hlt⟩
      unfold assign_expected
      rw [List.lookup_cons]
      have : (t.id == u.id) = false := by simpa using hne
      rw [this]
      show (assign_expected us (e + 1)).lookup t.id = some (e + (k + 1))
      rw [hk]
      congr 1
      omega

theorem relevant_of_apply_assign {db : DB} (hnd : IdsNodup db) :
    ∀ t ∈ db.todos,
      relevant_queued (apply_assign (assign_expected (get_queued_todos db) 1) t)
        = relevant_queued t := by
  intro t ht
  by_cases hmem : t.id ∈ (get_queued_todos db).map Todo.id
  · rcases List.mem_map.mp hmem with ⟨u, hu, huid⟩
    have hut : u = t := by
      have humem : u ∈ db.todos := List.mem_of_mem_filter ((get_queued_perm db).subset hu)
      exact List.inj_on_of_nodup_map hnd humem ht huid
    subst hut
    rcases lookup_assign_mem (get_queued_ids_nodup hnd) hu with ⟨k, hk, _⟩
    rw [apply_assign_eq, hk]
    have hrel : relevant_queued u = true := mem_get_queued_relevant hu
    have hrel2 : 0 < u.queue ∧ is_queue_relevant u.status = true := by
      simpa [relevant_queued] using hrel
    have h1 : 0 < 1 + k := by omega
    simp [relevant_queued, hrel2.1, hrel2.2, h1]
  · rw [apply_assign_not_mem hmem]

theorem relevant_queued_list_normalize (db : DB) (hnd : IdsNodup db) :
    relevant_queued_list (normalize_queue db)
      = (relevant_queued_list db).map
          (apply_assign (assign_expected (get_queued_todos db) 1)) := by
  unfold relevant_queued_list normalize_queue
  simp only
  rw [List.filter_map]
  congr 1
  exact List.filter_congr (fun t ht => relevant_of_apply_assign hnd t ht)

theorem map_f_get_queued (db : DB) (hnd : IdsNodup db) :
    (get_queued_todos db).map (apply_assign (assign_expected (get_queued_todos db) 1))
      = renumber (get_queued_todos db) 1 :=
  map_apply_assign (get_queued_ids_nodup hnd)

theorem queueInv_normalize (db : DB) (hnd : IdsNodup db) : QueueInv (normalize_queue db) := by
  unfold QueueInv
  have h1 := relevant_queued_list_normalize db hnd
  rw [h1]
  have h2 : ((relevant_queued_list db).map
      (apply_assign (assign_expected (get_queued_todos db) 1))).Perm
        (renumber (get_queued_todos db) 1) := by
    rw [← map_f_get_queued db hnd]
    exact ((get_queued_perm db).symm.map _)
  have h3 := h2.map Todo.queue
  rw [renumber_map_queue] at h3
  have h4 : ((relevant_queued_list db).map
      (apply_assign (assign_expected (get_queued_todos db) 1))).length
        = (get_queued_todos db).length := by
    rw [List.length_map]
    exact ((get_queued_perm db).length_eq).symm
  rw [h4]
  exact h3

theorem get_queued_normalize (db : DB) (hnd : IdsNodup db) :
    get_queued_todos (normalize_queue db) = renumber (get_queued_todos db) 1 := by
  have hperm : (get_queued_todos (normalize_queue db)).Perm
      (renumber (get_queued_todos db) 1) := by
    refine (get_queued_perm (normalize_queue db)).trans ?_
    rw [relevant_queued_list_normalize db hnd, ← map_f_get_queued db hnd]
    exact (get_queued_perm db).symm.map _
  refine perm_sorted_key_eq hperm (get_queued_sorted _) (renumber_sorted _ _) ?_
  have hq : ((get_queued_todos (normalize_queue db)).map Todo.queue).Nodup := by
    have := hperm.map Todo.queue
    rw [renumber_map_queue] at this
    exact (this.nodup_iff).mpr (List.nodup_range' _ _)
  have : ((get_queued_todos (normalize_queue db)).map
      (fun t => (t.queue, t.id))).Nodup := by
    have hcomp : (get_queued_todos (normalize_queue db)).map Todo.queue
        = ((get_queued_todos (normalize_queue db)).map (fun t => (t.queue, t.id))).map
            Prod.fst := by
      rw [List.map_map]; rfl
    rw [hcomp] at hq
    exact hq.of_map
  exact this

theorem get_queued_map_queue_of_inv (db : DB) (hinv : QueueInv db) :
    (get_queued_todos db).map Todo.queue
      = List.range' 1 (get_queued_todos db).length := by
  have hperm : ((get_queued_todos db).map Todo.queue).Perm
      (List.range' 1 (get_queued_todos db).length) := by
    refine ((get_queued_perm db).map Todo.queue).trans ?_
    rw [(get_queued_perm db).length_eq]
    exact hinv
  have hs1 : List.Sorted (· ≤ ·) ((get_queued_todos db).map Todo.queue) := by
    rw [List.Sorted, List.pairwise_map]
    refine (get_queued_sorted db).imp ?_
    intro a b hab
    unfold queue_le at hab
    omega
  have hs2 : List.Sorted (· ≤ ·) (List.range' 1 (get_queued_todos db).length) := by
    refine List.Pairwise.imp ?_ (List.pairwise_lt_range' _ _)
    intro a b
    omega
  exact List.eq_of_perm_of_sorted hperm hs1 hs2

/-- normalize_queue is the identity on any state already satisfying the
contiguity invariant: the loop finds every stored value equal to its expected
value and writes nothing. -/
theorem normalize_queue_fixpoint (db : DB) (hnd : IdsNodup db) (hinv : QueueInv db) :
    normalize_queue db = db := by
  have hmapQ : (get_queued_todos db).map (apply_assign (assign_expected (get_queued_todos db) 1))
      = get_queued_todos db := by
    rw [map_f_get_queued db hnd]
    exact renumber_eq_self (get_queued_map_queue_of_inv db hinv)
  have hptQ : ∀ t ∈ get_queued_todos db,
      apply_assign (assign_expected (get_queued_todos db) 1) t = t :=
    map_eq_self_mem hmapQ
  have hpt : ∀ t ∈ db.todos,
      apply_assign (assign_expected (get_queued_todos db) 1) t = t := by
    intro t ht
    by_cases hmem : t.id ∈ (get_queued_todos db).map Todo.id
    · rcases List.mem_map.mp hmem with ⟨u, hu, huid⟩
      have hut : u = t := by
        have humem : u ∈ db.todos := List.mem_of_mem_filter ((get_queued_perm db).subset hu)
        exact List.inj_on_of_nodup_map hnd humem ht huid
      subst hut
      exact hptQ u hu
    · exact apply_assign_not_mem hmem
  have hmap : db.todos.map (apply_assign (assign_expected (get_queued_todos db) 1))
      = db.todos := by
    rw [List.map_congr_left hpt]
    exact List.map_id _
  unfold normalize_queue
  rw [hmap]

/-- normalize_queue leaves rows with a non-relevant status untouched, so the
clean-irrelevant property survives. -/
theorem clean_normalize (db : DB) (hnd : IdsNodup db) (hc : CleanIrrelevant db) :
    CleanIrrelevant (normalize_queue db) := by
  intro t2 ht2 hst
  unfold normalize_queue at ht2
  simp only at ht2
  rcases List.mem_map.mp ht2 with ⟨t, ht, hft⟩
  by_cases hmem : t.id ∈ (get_queued_todos db).map Todo.id
  · exfalso
    rcases List.mem_map.mp hmem with ⟨u, hu, huid⟩
    have hut : u = t := by
      have humem : u ∈ db.todos := List.mem_of_mem_filter ((get_queued_perm db).subset hu)
      exact List.inj_on_of_nodup_map hnd humem ht huid
    subst hut
    have hrel : relevant_queued u = true := mem_get_queued_relevant hu
    have hrel2 : is_queue_relevant u.status = true := by
      have := by simpa [relevant_queued] using hrel
      exact this.2
    rw [← hft, apply_assign_status] at hst
    rw [hst] at hrel2
    cases hrel2
  · rw [apply_assign_not_mem hmem] at hft
    subst hft
    exact hc t ht hst

theorem idsNodup_normalize (db : DB) (hnd : IdsNodup db) :
    IdsNodup (normalize_queue db) :=
  idsNodup_map_of_id_preserving (apply_assign_id _) hnd

theorem zip_range'_no_change :
    ∀ {q : List Todo} {s : Nat}, q.map Todo.queue = List.range' s q.length →
      ((q.zip (List.range' s q.length)).any (fun p => decide (p.1.queue ≠ p.2))) = false := by
  intro q
  induction q with
  | nil => intro s _; rfl
  | cons t ts ih =>
    intro s h
    rw [List.map_cons, List.length_cons, List.range'_succ] at h
    have h1 : t.queue = s := by
      have := congrArg (fun l => l.headI) h
      simpa using this
    have h2 : ts.map Todo.queue = List.range' (s + 1) ts.length := by
      have := congrArg List.tail h
      simpa using this
    rw [List.length_cons, List.range'_succ, List.zip_cons_cons, List.any_cons]
    rw [Bool.or_eq_false_iff]
    exact ⟨by simp [h1], ih h2⟩

/-- Running normalize_queue on a freshly normalized state writes nothing: the
loop's changed flag stays false. -/
theorem normalize_changed_after (db : DB) (hnd : IdsNodup db) :
    normalize_changed (normalize_queue db) = false := by
  unfold normalize_changed
  refine zip_range'_no_change ?_
  rw [get_queued_normalize db hnd, renumber_map_queue, renumber_length]

/-- Second normalize_queue run is the identity. -/
theorem normalize_queue_idem (db : DB) (hnd : IdsNodup db) :
    normalize_queue (normalize_queue db) = normalize_queue db :=
  normalize_queue_fixpoint _ (idsNodup_normalize db hnd) (queueInv_normalize db hnd)

-- ---------------------------------------------------------------------------
-- Correctness of the cycle-detection DFS
-- ---------------------------------------------------------------------------

theorem dfs_visit_nil (deps : List Dep) (target : Nat) (visited : Finset Nat) :
    dfs_visit deps target [] visited = false := by
  rw [dfs_visit]

theorem dfs_visit_cons (deps : List Dep) (target c : Nat) (rest : List Nat)
    (visited : Finset Nat) :
    dfs_visit deps target (c :: rest) visited =
      if c = target then true
      else if c ∈ visited then dfs_visit deps target rest visited
      else dfs_visit deps target ((next_deps deps c).reverse ++ rest) (insert c visited) := by
  conv_lhs => rw [dfs_visit]

theorem depStep_of_mem_next_deps {deps : List Dep} {a b : Nat}
    (h : b ∈ next_deps deps a) : DepStep deps a b := by
  unfold next_deps at h
  rcases List.mem_map.mp h with ⟨d, hd, hdb⟩
  rcases List.mem_filter.mp hd with ⟨hdd, hda⟩
  exact ⟨d, hdd, by simpa using hda, hdb⟩

theorem mem_next_deps_of_depStep {deps : List Dep} {a b : Nat}
    (h : DepStep deps a b) : b ∈ next_deps deps a := by
  rcases h with ⟨d, hd, hda, hdb⟩
  unfold next_deps
  exact hdb ▸ List.mem_map_of_mem Dep.depends_on_id
    (List.mem_filter.mpr ⟨hd, by simpa using hda⟩)

theorem not_reach_of_closed {deps : List Dep} {S : Finset Nat} {target : Nat}
    (hclosed : ∀ v ∈ S, ∀ w, DepStep deps v w → w ∈ S) (htarget : target ∉ S) :
    ∀ a ∈ S, ¬ DepReach deps a target := by
  intro a ha hreach
  unfold DepReach at hreach
  revert ha
  induction hreach using Relation.ReflTransGen.head_induction_on with
  | refl => exact htarget
  | head hstep hrest ih =>
    intro hx
    exact ih (hclosed _ hx _ hstep)

theorem dfs_visit_sound (deps : List Dep) (target : Nat) :
    ∀ (stack : List Nat) (visited : Finset Nat),
      dfs_visit deps target stack visited = true →
      ∃ a, (a ∈ stack ∨ a ∈ visited) ∧ DepReach deps a target := by
  intro stack visited
  induction stack, visited using dfs_visit.induct deps target with
  | case1 visited =>
    intro h
    rw [dfs_visit_nil] at h
    cases h
  | case2 visited rest =>
    intro _
    exact ⟨target, Or.inl (List.mem_cons_self _ _), Relation.ReflTransGen.refl⟩
  | case3 visited current rest hne hvis ih =>
    intro h
    rw [dfs_visit_cons, if_neg hne, if_pos hvis] at h
    rcases ih h with ⟨a, ha, hr⟩
    rcases ha with ha | ha
    · exact ⟨a, Or.inl (List.mem_cons_of_mem _ ha), hr⟩
    · exact ⟨a, Or.inr ha, hr⟩
  | case4 visited current rest hne hvis ih =>
    intro h
    rw [dfs_visit_cons, if_neg hne, if_neg hvis] at h
    rcases ih h with ⟨a, ha, hr⟩
    rcases ha with ha | ha
    · rcases List.mem_append.mp ha with ha | ha
      · have hstep : DepStep deps current a :=
          depStep_of_mem_next_deps (List.mem_reverse.mp ha)
        exact ⟨current, Or.inl (List.mem_cons_self _ _),
          Relation.ReflTransGen.head hstep hr⟩
      · exact ⟨a, Or.inl (List.mem_cons_of_mem _ ha), hr⟩
    · rcases Finset.mem_insert.mp ha with rfl | ha
      · exact ⟨a, Or.inl (List.mem_cons_self _ _), hr⟩
      · exact ⟨a, Or.inr ha, hr⟩

theorem dfs_visit_complete (deps : List Dep) (target : Nat) :
    ∀ (stack : List Nat) (visited : Finset Nat),
      (∀ v ∈ visited, ∀ w, DepStep deps v w → (w ∈ stack ∨ w ∈ visited)) →
      target ∉ visited →
      dfs_visit deps target stack visited = false →
      ∀ a, (a ∈ stack ∨ a ∈ visited) → ¬ DepReach deps a target := by
  intro stack visited
  induction stack, visited using dfs_visit.induct deps target with
  | case1 visited =>
    intro hclosed htarget _ a ha
    have hS : ∀ v ∈ visited, ∀ w, DepStep deps v w → w ∈ visited := by
      intro v hv w hw
      rcases hclosed v hv w hw with h | h
      · cases h
      · exact h
    rcases ha with ha | ha
    · cases ha
    · exact not_reach_of_closed hS htarget a ha
  | case2 visited rest =>
    intro _ _ h
    rw [dfs_visit_cons, if_pos rfl] at h
    cases h
  | case3 visited current rest hne hvis ih =>
    intro hclosed htarget h a ha
    rw [dfs_visit_cons, if_neg hne, if_pos hvis] at h
    have hclosed2 : ∀ v ∈ visited, ∀ w, DepStep deps v w → (w ∈ rest ∨ w ∈ visited) := by
      intro v hv w hw
      rcases hclosed v hv w hw with hmem | hmem
      · rcases List.mem_cons.mp hmem with rfl | hmem
        · exact Or.inr hvis
        · exact Or.inl hmem
      · exact Or.inr hmem
    refine ih hclosed2 htarget h a ?_
    rcases ha with ha | ha
    · rcases List.mem_cons.mp ha with rfl | ha
      · exact Or.inr hvis
      · exact Or.inl ha
    · exact Or.inr ha
  | case4 visited current rest hne hvis ih =>
    intro hclosed htarget h a ha
    rw [dfs_visit_cons, if_neg hne, if_neg hvis] at h
    have hclosed2 : ∀ v ∈ insert current visited, ∀ w, DepStep deps v w →
        (w ∈ (next_deps deps current).reverse ++ rest ∨ w ∈ insert current visited) := by
      intro v hv w hw
      rcases Finset.mem_insert.mp hv with rfl | hv
      · exact Or.inl (List.mem_append.mpr
          (Or.inl (List.mem_reverse.mpr (mem_next_deps_of_depStep hw))))
      · rcases hclosed v hv w hw with hmem | hmem
        · rcases List.mem_cons.mp hmem with rfl | hmem
          · exact Or.inr (Finset.mem_insert_self _ _)
          · exact Or.inl (List.mem_append.mpr (Or.inr hmem))
        · exact Or.inr (Finset.mem_insert.mpr (Or.inr hmem))
    have htarget2 : target ∉ insert current visited := by
      intro hmem
      rcases Finset.mem_insert.mp hmem with rfl | hmem
      · exact hne rfl
      · exact htarget hmem
    refine ih hclosed2 htarget2 h a ?_
    rcases ha with ha | ha
    · rcases List.mem_cons.mp ha with rfl | ha
      · exact Or.inr (Finset.mem_insert_self _ _)
      · exact Or.inl (List.mem_append.mpr (Or.inr ha))
    · exact Or.inr (Finset.mem_insert.mpr (Or.inr ha))

theorem depReach_append_edge_to {deps : List Dep} {e : Dep} {x : Nat}
    (h : DepReach (deps ++ [e]) x e.todo_id) : DepReach deps x e.todo_id := by
  unfold DepReach at h ⊢
  induction h using Relation.ReflTransGen.head_induction_on with
  | refl => exact Relation.ReflTransGen.refl
  | head hstep _ ih =>
    rcases hstep with ⟨d, hd, hda, hdb⟩
    rcases List.mem_append.mp hd with hd | hd
    · exact Relation.ReflTransGen.head ⟨d, hd, hda, hdb⟩ ih
    · rw [List.mem_singleton.mp hd] at hda
      rw [← hda]

/-- The DFS in _would_create_cycle decides exactly reachability along
depends-on edges. -/
theorem would_create_cycle_iff (deps : List Dep) (s t : Nat) :
    would_create_cycle deps s t = true ↔ DepReach deps s t := by
  constructor
  · intro h
    rcases dfs_visit_sound deps t [s] ∅ h with ⟨a, ha, hr⟩
    rcases ha with ha | ha
    · rw [List.mem_singleton.mp ha] at hr
      exact hr
    · cases Finset.not_mem_empty a ha
  · intro h
    by_contra hfalse
    rw [Bool.not_eq_true] at hfalse
    exact dfs_visit_complete deps t [s] ∅
      (by intro v hv; cases Finset.not_mem_empty v hv)
      (Finset.not_mem_empty t) hfalse s (Or.inl (List.mem_singleton_self s)) h

theorem would_create_cycle_nil {s t : Nat} (h : s ≠ t) :
    would_create_cycle [] s t = false := by
  rw [Bool.eq_false_iff]
  intro hc
  have hr := (would_create_cycle_iff [] s t).mp hc
  rcases Relation.ReflTransGen.cases_head hr with heq | ⟨c, hstep, _⟩
  · exact h heq
  · rcases hstep with ⟨d, hd, _, _⟩
    cases hd

-- ---------------------------------------------------------------------------
-- Helper lemmas for the individual operations
-- ---------------------------------------------------------------------------

theorem mem_iterate_grow (todos : List Todo) (x : Nat) :
    ∀ (n : Nat) (l : List Nat), x ∈ l → x ∈ (grow_deleted todos)^[n] l := by
  intro n
  induction n with
  | zero => intro l h; simpa using h
  | succ n ih =>
    intro l h
    rw [Function.iterate_succ_apply]
    exact ih _ (List.mem_append.mpr (Or.inl h))

theorem mem_deleted_ids (db : DB) (todo_id : Nat) : todo_id ∈ deleted_ids db todo_id :=
  mem_iterate_grow db.todos todo_id db.todos.length [todo_id] (List.mem_singleton_self _)

theorem get_todo_replace (db : DB) (todo_id : Nat) (t2 : Todo) (ht2 : t2.id = todo_id)
    (i : Nat) :
    get_todo { db with todos := db.todos.map (fun x => if x.id = todo_id then t2 else x) } i
      = Option.map (fun x => if x.id = todo_id then t2 else x) (get_todo db i) := by
  unfold get_todo
  refine find?_beq_map _ (fun x => ?_) _ _
  by_cases h : x.id = todo_id <;> simp [h, ht2]

theorem apply_assign_irrelevant {db : DB} {t : Todo} (hnd : IdsNodup db)
    (hmem : t ∈ db.todos) (hrel : relevant_queued t = false) :
    apply_assign (assign_expected (get_queued_todos db) 1) t = t := by
  refine apply_assign_not_mem ?_
  intro hmem2
  rcases List.mem_map.mp hmem2 with ⟨u, hu, huid⟩
  have hut : u = t := List.inj_on_of_nodup_map hnd
    (List.mem_of_mem_filter ((get_queued_perm db).subset hu)) hmem huid
  rw [hut] at hu
  rw [mem_get_queued_relevant hu] at hrel
  cases hrel

/-- update_todo on an existing row, when the resulting status is not
queue-relevant and the resulting queue value is nonzero: the row is stored
with queue forced to 0 and normalize_queue runs. -/
theorem update_todo_cleared_eq (db : DB) (todo_id : Nat) (u : TodoUpdate) (t : Todo)
    (ht : get_todo db todo_id = some t)
    (hirr : is_queue_relevant (u.status.getD t.status) = false)
    (hq : u.queue.getD t.queue ≠ 0) :
    update_todo db todo_id u
      = normalize_queue { db with todos := db.todos.map (fun x =>
          if x.id = todo_id then { t with status := u.status.getD t.status, queue := 0 }
          else x) } := by
  unfold update_todo
  rw [ht]
  simp [hirr, hq]

/-- The row written by a cleared update is found unchanged after the
normalize pass: its status is no longer queue-relevant, so normalize_queue
skips it. -/
theorem get_todo_after_cleared_update (db : DB) (todo_id : Nat) (u : TodoUpdate) (t : Todo)
    (hnd : IdsNodup db) (ht : get_todo db todo_id = some t)
    (hirr : is_queue_relevant (u.status.getD t.status) = false)
    (hq : u.queue.getD t.queue ≠ 0) :
    get_todo (update_todo db todo_id u) todo_id
      = some { t with status := u.status.getD t.status, queue := 0 } := by
  rw [update_todo_cleared_eq db todo_id u t ht hirr hq]
  set t2 : Todo := { t with status := u.status.getD t.status, queue := 0 } with ht2def
  set db1 : DB :=
    { db with todos := db.todos.map (fun x => if x.id = todo_id then t2 else x) } with hdb1
  have hid : t.id = todo_id := get_todo_id ht
  have ht2id : t2.id = todo_id := hid
  have hg1 : get_todo db1 todo_id = some t2 := by
    rw [hdb1, get_todo_replace db todo_id t2 ht2id, ht]
    simp [hid]
  have hnd1 : IdsNodup db1 := by
    refine idsNodup_map_of_id_preserving (fun x => ?_) hnd
    by_cases h : x.id = todo_id <;> simp [h, ht2id]
  have hrel2 : relevant_queued t2 = false := by
    rw [ht2def]
    simp [relevant_queued]
  rw [get_todo_normalize, hg1]
  show some (apply_assign (assign_expected (get_queued_todos db1) 1) t2) = some t2
  rw [apply_assign_irrelevant hnd1 (get_todo_mem hg1) hrel2]

/-- The characterization of check_dependencies_met: true iff every
prerequisite row whose prerequisite todo exists points at a completed todo. -/
theorem check_dependencies_met_iff (db : DB) (todo_id : Nat) :
    check_dependencies_met db todo_id = true ↔
      ∀ d ∈ db.deps, d.todo_id = todo_id →
        ∀ u, get_todo db d.depends_on_id = some u → u.status = TodoStatus.completed := by
  unfold check_dependencies_met get_dependencies
  rw [List.all_eq_true]
  constructor
  · intro h d hd hdt u hu
    have h2 := h d (List.mem_filter.mpr ⟨hd, by simpa using hdt⟩)
    rw [hu] at h2
    simpa using h2
  · intro h d hd
    rcases List.mem_filter.mp hd with ⟨hdd, hdt⟩
    cases hu : get_todo db d.depends_on_id with
    | none => rfl
    | some u => exact decide_eq_true (h d hdd (by simpa using hdt) u hu)

theorem move_queue_up_eq (db : DB) (todo_id : Nat) (t : Todo)
    (ht : get_todo db todo_id = some t) :
    move_queue_up db todo_id =
      if t.queue ≤ 1 then db
      else
        match is_queue_relevant t.status with
        | false => if t.queue = 0 then db else normalize_queue (set_queue db todo_id 0)
        | true =>
          match find_at_pos db (t.queue - 1) with
          | none => normalize_queue db
          | some prev => set_queue (set_queue db prev.id t.queue) todo_id (t.queue - 1) := by
  unfold move_queue_up
  rw [ht]

theorem move_queue_down_eq (db : DB) (todo_id : Nat) (t : Todo)
    (ht : get_todo db todo_id = some t) :
    move_queue_down db todo_id =
      if t.queue = 0 then db
      else
        match is_queue_relevant t.status with
        | false => normalize_queue (set_queue db todo_id 0)
        | true =>
          match find_at_pos db (t.queue + 1) with
          | none => normalize_queue db
          | some next => set_queue (set_queue db next.id t.queue) todo_id (t.queue + 1) := by
  unfold move_queue_down
  rw [ht]

theorem add_to_queue_eq (db : DB) (todo_id : Nat) (t : Todo)
    (ht : get_todo db todo_id = some t) :
    add_to_queue db todo_id =
      match is_queue_relevant t.status with
      | false => if t.queue = 0 then db else normalize_queue (set_queue db todo_id 0)
      | true =>
        if 0 < t.queue then db
        else set_queue db todo_id (get_max_queue db + 1) := by
  unfold add_to_queue
  rw [ht]

theorem remove_from_queue_eq (db : DB) (todo_id : Nat) (t : Todo)
    (ht : get_todo db todo_id = some t) :
    remove_from_queue db todo_id =
      if t.queue = 0 then db else normalize_queue (set_queue db todo_id 0) := by
  unfold remove_from_queue
  rw [ht]

theorem idsNodup_set_queue (db : DB) (todo_id q : Nat) (hnd : IdsNodup db) :
    IdsNodup (set_queue db todo_id q) := by
  refine idsNodup_map_of_id_preserving (fun x => ?_) hnd
  by_cases h : x.id = todo_id <;> simp [h]

/-- The defensive clear: after set_queue to 0 followed by normalize_queue, the
cleared row is found with queue = 0 (whatever its status, a zero queue keeps
it out of normalize_queue's renumbering). -/
theorem get_todo_clear_normalize (db : DB) (todo_id : Nat) (t : Todo)
    (hnd : IdsNodup db) (ht : get_todo db todo_id = some t) :
    get_todo (normalize_queue (set_queue db todo_id 0)) todo_id
      = some { t with queue := 0 } := by
  have hid : t.id = todo_id := get_todo_id ht
  have hg1 : get_todo (set_queue db todo_id 0) todo_id = some { t with queue := 0 } := by
    rw [get_todo_set_queue, ht]
    simp [hid]
  rw [get_todo_normalize, hg1]
  show some (apply_assign _ _) = _
  rw [apply_assign_irrelevant (idsNodup_set_queue db todo_id 0 hnd) (get_todo_mem hg1)
    (by simp [relevant_queued])]

-- ---------------------------------------------------------------------------
-- Claim C2
-- ---------------------------------------------------------------------------

/-- C2: on two existing, distinct tasks, create_dependency raises
CycleDetected exactly when a directed path along existing depends-on edges
already leads from the prerequisite to the dependent.  The raising result
carries the input store unchanged (the ValueError in crud.py is raised before
anything is added to the session), so no edge row is written on error and the
edge set is untouched. -/
theorem spec_C2 (db : DB) (a b : Nat) (ta tb : Todo) (hab : a ≠ b)
    (hta : get_todo db a = some ta) (htb : get_todo db b = some tb) :
    create_dependency db a b = DepResult.cycle_detected db a b ↔ DepReach db.deps b a := by
  constructor
  · intro h
    rw [← would_create_cycle_iff]
    by_contra hc
    rw [Bool.not_eq_true] at hc
    unfold create_dependency at h
    rw [if_neg hab, hta, htb] at h
    simp only [hc, Bool.false_eq_true, if_false] at h
    split at h <;> simp at h
  · intro hr
    have hc : would_create_cycle db.deps b a = true := (would_create_cycle_iff _ _ _).mpr hr
    unfold create_dependency
    rw [if_neg hab, hta, htb]
    simp [hc]

/-- Witness for C2: in a store where task 2 already depends on task 1, adding
an edge that makes 1 depend on 2 is reported as a cycle, and the path from
prerequisite 2 to dependent 1 indeed exists. -/
theorem spec_C2_witness :
    (create_dependency exEdge21 1 2 = DepResult.cycle_detected exEdge21 1 2 ↔
      DepReach exEdge21.deps 2 1) ∧
    DepReach exEdge21.deps 2 1 := by
  refine ⟨spec_C2 exEdge21 1 2 ⟨1, .pending, 0, none, none⟩ ⟨2, .pending, 0, none, none⟩
    (by decide) rfl rfl, ?_⟩
  exact Relation.ReflTransGen.single ⟨⟨1, 2, 1⟩, List.mem_singleton_self _, rfl, rfl⟩

-- ---------------------------------------------------------------------------
-- Claim C6
-- ---------------------------------------------------------------------------

/-- C6: check_dependencies_met (the readiness check) returns true iff the
task has no prerequisite edges or every existing prerequisite task is
completed; in particular an existing prerequisite whose status is pending,
in-progress or cancelled makes it return false (cancellation does not satisfy
a dependency). -/
theorem spec_C6 (db : DB) (todo_id : Nat) :
    (check_dependencies_met db todo_id = true ↔
      ∀ d ∈ db.deps, d.todo_id = todo_id →
        ∀ u, get_todo db d.depends_on_id = some u → u.status = TodoStatus.completed) ∧
    (∀ d ∈ db.deps, d.todo_id = todo_id →
      ∀ u, get_todo db d.depends_on_id = some u → u.status ≠ TodoStatus.completed →
        check_dependencies_met db todo_id = false) := by
  refine ⟨check_dependencies_met_iff db todo_id, ?_⟩
  intro d hd hdt u hu hne
  rw [Bool.eq_false_iff]
  intro hc
  exact hne ((check_dependencies_met_iff db todo_id).mp hc d hd hdt u hu)

-- ---------------------------------------------------------------------------
-- Claim C10
-- ---------------------------------------------------------------------------

/-- C10: dangling prerequisite edges are treated as satisfied — when every
prerequisite row of a task points at an id with no todo row (for example
because the prerequisite tasks were deleted), check_dependencies_met skips
them all and reports the task ready instead of blocked or erroring. -/
theorem spec_C10 (db : DB) (todo_id : Nat)
    (h : ∀ d ∈ db.deps, d.todo_id = todo_id → get_todo db d.depends_on_id = none) :
    check_dependencies_met db todo_id = true := by
  rw [check_dependencies_met_iff]
  intro d hd hdt u hu
  rw [h d hd hdt] at hu
  cases hu

/-- Witness for C10: task 1 depends only on id 7, which has no row; the
readiness check reports task 1 ready. -/
theorem spec_C10_witness :
    check_dependencies_met exDangling 1 = true ∧
    get_todo exDangling 7 = none :=
  ⟨spec_C10 exDangling 1 (by decide), rfl⟩

-- ---------------------------------------------------------------------------
-- Claim C4
-- ---------------------------------------------------------------------------

/-- C4: an update_todo that sets the status of an existing queued task
(queue > 0) to completed or cancelled stores the row with queue = 0 and runs
normalize_queue, so afterwards the remaining relevant queued tasks are
numbered 1..N contiguously. -/
theorem spec_C4 (db : DB) (todo_id : Nat) (st : TodoStatus) (t : Todo)
    (hnd : IdsNodup db) (ht : get_todo db todo_id = some t) (hq : 0 < t.queue)
    (hst : st = TodoStatus.completed ∨ st = TodoStatus.cancelled) :
    get_todo (update_todo db todo_id { status := some st, queue := none }) todo_id
        = some { t with status := st, queue := 0 } ∧
      QueueInv (update_todo db todo_id { status := some st, queue := none }) := by
  have hirr : is_queue_relevant ((some st).getD t.status) = false := by
    rcases hst with rfl | rfl <;> rfl
  have hq2 : (none : Option Nat).getD t.queue ≠ 0 := by
    simp only [Option.getD_none]
    omega
  constructor
  · exact get_todo_after_cleared_update db todo_id _ t hnd ht hirr hq2
  · rw [update_todo_cleared_eq db todo_id _ t ht hirr hq2]
    refine queueInv_normalize _ ?_
    refine idsNodup_map_of_id_preserving (fun x => ?_) hnd
    have hid : t.id = todo_id := get_todo_id ht
    by_cases h : x.id = todo_id <;> simp [h, hid]

/-- Witness for C4, the spec's scenario 2: queue A=1 B=2 C=3, completing B
forces B.queue to 0 and renumbers to A=1, C=2. -/
theorem spec_C4_witness :
    (get_todo (update_todo exQueueABC 2 { status := some .completed, queue := none }) 2
        = some { id := 2, status := .completed, queue := 0, task_size := none,
                 parent_id := none } ∧
      QueueInv (update_todo exQueueABC 2 { status := some .completed, queue := none })) ∧
    (relevant_queued_list
        (update_todo exQueueABC 2 { status := some .completed, queue := none })).map
          Todo.queue = [1, 2] :=
  ⟨spec_C4 exQueueABC 2 .completed ⟨2, .pending, 2, none, none⟩ (by decide) rfl
      (by decide) (Or.inl rfl),
   by decide⟩

-- ---------------------------------------------------------------------------
-- Claim C5
-- ---------------------------------------------------------------------------

/-- C5: a caller-supplied positive queue value is silently forced to 0, not
rejected, whenever the resulting status is not queue-relevant: create_todo
stores the new row with queue 0 and still succeeds, and update_todo stores
the row with queue 0 and still succeeds. -/
theorem spec_C5 :
    (∀ (db : DB) (c : TodoCreate), is_queue_relevant c.status = false →
      (create_todo db c).2.queue = 0 ∧
      (create_todo db c).1.todos = db.todos ++ [(create_todo db c).2]) ∧
    (∀ (db : DB) (todo_id : Nat) (st : Option TodoStatus) (q : Nat) (t : Todo),
      IdsNodup db → get_todo db todo_id = some t → 0 < q →
      is_queue_relevant (st.getD t.status) = false →
      get_todo (update_todo db todo_id { status := st, queue := some q }) todo_id
        = some { t with status := st.getD t.status, queue := 0 }) := by
  constructor
  · intro db c h
    unfold create_todo
    simp [h]
  · intro db todo_id st q t hnd ht hq hirr
    have hq2 : (some q).getD t.queue ≠ 0 := by
      simp only [Option.getD_some]
      omega
    exact get_todo_after_cleared_update db todo_id _ t hnd ht hirr hq2

/-- Witness for C5: creating a completed task with requested queue 7 stores
queue 0; updating a queued pending task to completed with requested queue 5
stores queue 0; both operations succeed. -/
theorem spec_C5_witness :
    ((create_todo exTwoClean { status := .completed, queue := 7 }).2.queue = 0 ∧
      (create_todo exTwoClean { status := .completed, queue := 7 }).1.todos
        = exTwoClean.todos ++ [(create_todo exTwoClean { status := .completed, queue := 7 }).2]) ∧
    get_todo (update_todo exSingleQueued 1
        { status := some .completed, queue := some 5 }) 1
      = some { id := 1, status := .completed, queue := 0, task_size := none,
               parent_id := none } :=
  ⟨spec_C5.1 exTwoClean { status := .completed, queue := 7 } rfl,
   spec_C5.2 exSingleQueued 1 (some .completed) 5 ⟨1, .pending, 1, none, none⟩
     (by decide) rfl (by decide) rfl⟩

-- ---------------------------------------------------------------------------
-- Bookkeeping for single-row queue updates
-- ---------------------------------------------------------------------------

theorem filter_clause (s : Todo) (m : List Todo) :
    (s :: m).filter relevant_queued
      = (if relevant_queued s then [s] else []) ++ m.filter relevant_queued := by
  rw [List.filter_cons]
  by_cases hP : relevant_queued s = true
  · rw [if_pos hP, if_pos hP]
    rfl
  · rw [if_neg hP, if_neg hP]
    rfl

theorem map_id_of_fix (f : Todo → Todo) (l : List Todo) (h : ∀ u ∈ l, f u = u) :
    l.map f = l := by
  rw [List.map_congr_left h]
  exact List.map_id _

/-- Decomposition of the relevant queued list under a single-row update:
splitting the table at the updated row, the filtered list before and after the
update shares the two flanks and differs only in the middle clause. -/
theorem rq_update_split (db : DB) (todo_id : Nat) (t : Todo) (f : Todo → Todo)
    (hnd : IdsNodup db) (ht : get_todo db todo_id = some t)
    (hfid : ∀ u, u.id ≠ todo_id → f u = u) :
    ∃ l1 l2,
      relevant_queued_list db
        = l1 ++ ((if relevant_queued t then [t] else []) ++ l2) ∧
      (db.todos.map f).filter relevant_queued
        = l1 ++ ((if relevant_queued (f t) then [f t] else []) ++ l2) := by
  rcases get_todo_split hnd ht with ⟨a, c, hsplit, ha, hc⟩
  refine ⟨a.filter relevant_queued, c.filter relevant_queued, ?_, ?_⟩
  · rw [relevant_queued_list, hsplit, List.filter_append, filter_clause]
  · rw [hsplit, List.map_append, List.map_cons,
      map_id_of_fix f a (fun u hu => hfid u (ha u hu)),
      map_id_of_fix f c (fun u hu => hfid u (hc u hu)),
      List.filter_append, filter_clause]

theorem relevant_queued_list_set_queue_eq (db : DB) (todo_id q : Nat) :
    relevant_queued_list (set_queue db todo_id q)
      = (db.todos.map (fun x => if x.id = todo_id then { x with queue := q } else x)).filter
          relevant_queued := rfl

theorem relevant_queued_list_replace_eq (db : DB) (todo_id : Nat) (t2 : Todo) :
    relevant_queued_list
        { db with todos := db.todos.map (fun x => if x.id = todo_id then t2 else x) }
      = (db.todos.map (fun x => if x.id = todo_id then t2 else x)).filter
          relevant_queued := rfl

theorem clean_set_zero {db : DB} {todo_id : Nat} (hc : CleanIrrelevant db) :
    CleanIrrelevant (set_queue db todo_id 0) := by
  intro u hu hust
  rcases List.mem_map.mp hu with ⟨x, hx, hxu⟩
  by_cases hxi : x.id = todo_id
  · rw [if_pos hxi] at hxu
    rw [← hxu]
  · rw [if_neg hxi] at hxu
    rw [← hxu] at hust ⊢
    exact hc x hx hust

theorem clean_set_queue {db : DB} {t : Todo} {q : Nat}
    (hnd : IdsNodup db) (ht : get_todo db t.id = some t)
    (hrel : is_queue_relevant t.status = true)
    (hc : CleanIrrelevant db) : CleanIrrelevant (set_queue db t.id q) := by
  intro u hu hust
  rcases List.mem_map.mp hu with ⟨x, hx, hxu⟩
  by_cases hxi : x.id = t.id
  · have hxt : x = t := List.inj_on_of_nodup_map hnd hx (get_todo_mem ht) hxi
    rw [if_pos hxi] at hxu
    rw [← hxu] at hust
    rw [show ({ x with queue := q } : Todo).status = x.status from rfl, hxt, hrel] at hust
    cases hust
  · rw [if_neg hxi] at hxu
    rw [← hxu] at hust ⊢
    exact hc x hx hust

theorem clean_replace {db : DB} {todo_id : Nat} {t2 : Todo}
    (hcond : is_queue_relevant t2.status = false → t2.queue = 0)
    (hc : CleanIrrelevant db) :
    CleanIrrelevant
      { db with todos := db.todos.map (fun x => if x.id = todo_id then t2 else x) } := by
  intro u hu hust
  rcases List.mem_map.mp hu with ⟨x, hx, hxu⟩
  by_cases hxi : x.id = todo_id
  · rw [if_pos hxi] at hxu
    rw [← hxu] at hust ⊢
    exact hcond hust
  · rw [if_neg hxi] at hxu
    rw [← hxu] at hust ⊢
    exact hc x hx hust

theorem foldr_max_perm {l m : List Nat} (h : l.Perm m) :
    l.foldr max 0 = m.foldr max 0 := by
  haveI : LeftCommutative (max : Nat → Nat → Nat) :=
    ⟨fun a b c => by rw [← Nat.max_assoc, Nat.max_comm a b, Nat.max_assoc]⟩
  exact h.foldr_eq 0

theorem foldr_max_range' :
    ∀ (n s : Nat), (List.range' s n).foldr max 0 = if n = 0 then 0 else s + n - 1 := by
  intro n
  induction n with
  | zero => intro s; rfl
  | succ n ih =>
    intro s
    rw [List.range'_succ, List.foldr_cons, ih (s + 1)]
    by_cases h : n = 0
    · subst h
      simp
    · rw [if_neg h, if_neg (Nat.succ_ne_zero n)]
      have h1 : s + 1 + n - 1 = s + n := by omega
      rw [h1, Nat.max_eq_right (by omega : s ≤ s + n)]
      omega

/-- Under the contiguity invariant, the maximum queue value is exactly the
number of relevant queued rows. -/
theorem get_max_queue_eq (db : DB) (hinv : QueueInv db) :
    get_max_queue db = (relevant_queued_list db).length := by
  show ((relevant_queued_list db).map Todo.queue).foldr max 0 = _
  rw [foldr_max_perm hinv, foldr_max_range']
  by_cases h : (relevant_queued_list db).length = 0
  · rw [if_pos h, h]
  · rw [if_neg h]
    omega

/-- Enqueueing an unqueued relevant row at max + 1 keeps the queue values a
permutation of 1..N (now with N + 1 rows). -/
theorem queueInv_enqueue (db : DB) (todo_id : Nat) (t : Todo)
    (hnd : IdsNodup db) (hinv : QueueInv db)
    (ht : get_todo db todo_id = some t) (hrel : is_queue_relevant t.status = true)
    (hq : t.queue = 0) :
    QueueInv (set_queue db todo_id (get_max_queue db + 1)) := by
  have hid : t.id = todo_id := get_todo_id ht
  rcases rq_update_split db todo_id t
      (fun x => if x.id = todo_id then { x with queue := get_max_queue db + 1 } else x)
      hnd ht (fun u hu => if_neg hu) with ⟨l1, l2, hA, hB⟩
  have hPt : relevant_queued t = false := by
    simp [relevant_queued, hq]
  have hft : (if t.id = todo_id then { t with queue := get_max_queue db + 1 } else t)
      = { t with queue := get_max_queue db + 1 } := if_pos hid
  have hPft : relevant_queued { t with queue := get_max_queue db + 1 } = true := by
    simp [relevant_queued, hrel]
  rw [hPt, if_neg (by simp)] at hA
  rw [hft, hPft, if_pos rfl] at hB
  set N := (relevant_queued_list db).length with hN
  have hmax : get_max_queue db = N := get_max_queue_eq db hinv
  have hlenA : l1.length + l2.length = N := by
    rw [hN, hA]
    simp
  unfold QueueInv
  rw [relevant_queued_list_set_queue_eq, hB]
  have hlen : (l1 ++ ([{ t with queue := get_max_queue db + 1 }] ++ l2)).length = N + 1 := by
    simp
    omega
  rw [hlen]
  have hstep1 : ((l1 ++ ([{ t with queue := get_max_queue db + 1 }] ++ l2)).map
      Todo.queue).Perm ((N + 1) :: ((l1 ++ l2).map Todo.queue)) := by
    rw [List.map_append, List.map_append, List.map_cons, List.map_nil, List.map_append]
    rw [show ({ t with queue := get_max_queue db + 1 } : Todo).queue
      = get_max_queue db + 1 from rfl, hmax]
    exact List.perm_middle
  refine hstep1.trans ?_
  have hA2 : (relevant_queued_list db).map Todo.queue = (l1 ++ l2).map Todo.queue := by
    rw [hA]
    simp
  have h3 : ((l1 ++ l2).map Todo.queue).Perm (List.range' 1 N) := by
    rw [← hA2]
    exact hinv
  refine (h3.cons (N + 1)).trans ?_
  have hconcat : List.range' 1 (N + 1) = List.range' 1 N ++ [N + 1] := by
    rw [List.range'_concat]
    congr 1
    simp
    omega
  rw [hconcat]
  exact (List.perm_append_singleton _ _).symm

/-- Replacing a row by one with the same queue value and the same
relevant-queued flag preserves the contiguity invariant. -/
theorem queueInv_replace_same (db : DB) (todo_id : Nat) (t t2 : Todo)
    (hnd : IdsNodup db) (hinv : QueueInv db) (ht : get_todo db todo_id = some t)
    (hP : relevant_queued t2 = relevant_queued t) (hq : t2.queue = t.queue) :
    QueueInv { db with todos := db.todos.map (fun x => if x.id = todo_id then t2 else x) } := by
  have hid : t.id = todo_id := get_todo_id ht
  rcases rq_update_split db todo_id t (fun x => if x.id = todo_id then t2 else x)
      hnd ht (fun u hu => if_neg hu) with ⟨l1, l2, hA, hB⟩
  rw [if_pos hid, hP] at hB
  unfold QueueInv
  rw [relevant_queued_list_replace_eq, hB]
  by_cases hPt : relevant_queued t = true
  · rw [hPt, if_pos rfl] at hA hB ⊢
    have e1 : ((l1 ++ ([t2] ++ l2)).map Todo.queue) = ((l1 ++ ([t] ++ l2)).map Todo.queue) := by
      simp [hq]
    have e2 : (l1 ++ ([t2] ++ l2)).length = (l1 ++ ([t] ++ l2)).length := by
      simp
    rw [e1, e2, ← hA]
    exact hinv
  · have hPf : relevant_queued t = false := by
      rw [Bool.eq_false_iff]
      exact hPt
    rw [hPf, if_neg (by simp)] at hA ⊢
    rw [← hA]
    exact hinv

/-- Swapping the queue values of two distinct relevant queued rows preserves
the contiguity invariant. -/
theorem queueInv_set_swap (db : DB) (ti tj : Todo)
    (hnd : IdsNodup db) (hinv : QueueInv db)
    (hti : get_todo db ti.id = some ti) (htj : get_todo db tj.id = some tj)
    (hne : ti.id ≠ tj.id)
    (hPi : relevant_queued ti = true) (hPj : relevant_queued tj = true) :
    QueueInv (set_queue (set_queue db ti.id tj.queue) tj.id ti.queue) := by
  have hqj : 0 < tj.queue := by
    have := hPj
    unfold relevant_queued at this
    rcases Bool.and_eq_true_iff.mp this with ⟨h1, _⟩
    simpa using h1
  have hreli : is_queue_relevant ti.status = true := by
    have := hPi
    unfold relevant_queued at this
    exact (Bool.and_eq_true_iff.mp this).2
  set db1 : DB := set_queue db ti.id tj.queue with hdb1
  rcases rq_update_split db ti.id ti
      (fun x => if x.id = ti.id then { x with queue := tj.queue } else x)
      hnd hti (fun u hu => if_neg hu) with ⟨l1, l2, hA, hB⟩
  rw [if_pos rfl] at hB
  have hPi2 : relevant_queued { ti with queue := tj.queue } = true := by
    simp [relevant_queued, hreli]
    omega
  rw [hPi, if_pos rfl] at hA
  rw [hPi2, if_pos rfl] at hB
  have hB2 : relevant_queued_list db1 = l1 ++ ([{ ti with queue := tj.queue }] ++ l2) := hB
  have hnd1 : IdsNodup db1 := idsNodup_set_queue db ti.id tj.queue hnd
  have hgtj1 : get_todo db1 tj.id = some tj := by
    rw [hdb1, get_todo_set_queue, htj]
    have : (tj.id = ti.id) = False := by
      simp
      exact fun h => hne h.symm
    simp [this]
  rcases rq_update_split db1 tj.id tj
      (fun x => if x.id = tj.id then { x with queue := ti.queue } else x)
      hnd1 hgtj1 (fun u hu => if_neg hu) with ⟨m1, m2, hC, hD⟩
  rw [if_pos rfl] at hD
  have hreljj : is_queue_relevant tj.status = true := by
    have := hPj
    unfold relevant_queued at this
    exact (Bool.and_eq_true_iff.mp this).2
  have hPj2 : relevant_queued { tj with queue := ti.queue } = true := by
    have hqi : 0 < ti.queue := by
      have := hPi
      unfold relevant_queued at this
      rcases Bool.and_eq_true_iff.mp this with ⟨h1, _⟩
      simpa using h1
    simp [relevant_queued, hreljj]
    omega
  rw [hPj, if_pos rfl] at hC
  rw [hPj2, if_pos rfl] at hD
  -- lengths agree
  have hlenA : (relevant_queued_list db).length = l1.length + 1 + l2.length := by
    rw [hA]
    simp
    omega
  have hlenC : (relevant_queued_list db1).length = m1.length + 1 + m2.length := by
    rw [hC]
    simp
    omega
  have hlenB : (relevant_queued_list db1).length = l1.length + 1 + l2.length := by
    rw [hB2]
    simp
    omega
  -- the two flank pairs are permutations of each other
  have e1 : ((relevant_queued_list db1).map Todo.queue).Perm
      (tj.queue :: (m1.map Todo.queue ++ m2.map Todo.queue)) := by
    rw [hC]
    simp only [List.map_append, List.map_cons, List.map_nil, List.nil_append,
      List.singleton_append]
    exact List.perm_middle
  have e2 : ((relevant_queued_list db1).map Todo.queue).Perm
      (tj.queue :: (l1.map Todo.queue ++ l2.map Todo.queue)) := by
    rw [hB2]
    simp only [List.map_append, List.map_cons, List.map_nil, List.nil_append,
      List.singleton_append]
    rw [show ({ ti with queue := tj.queue } : Todo).queue = tj.queue from rfl]
    exact List.perm_middle
  have hmid : (m1.map Todo.queue ++ m2.map Todo.queue).Perm
      (l1.map Todo.queue ++ l2.map Todo.queue) :=
    (e1.symm.trans e2).cons_inv
  have e3 : ((relevant_queued_list db).map Todo.queue).Perm
      (ti.queue :: (l1.map Todo.queue ++ l2.map Todo.queue)) := by
    rw [hA]
    simp only [List.map_append, List.map_cons, List.map_nil, List.nil_append,
      List.singleton_append]
    exact List.perm_middle
  have hfinal : (((db1.todos.map
      (fun x => if x.id = tj.id then { x with queue := ti.queue } else x)).filter
        relevant_queued).map Todo.queue).Perm
      ((relevant_queued_list db).map Todo.queue) := by
    rw [hD]
    simp only [List.map_append, List.map_cons, List.map_nil, List.nil_append,
      List.singleton_append]
    rw [show ({ tj with queue := ti.queue } : Todo).queue = ti.queue from rfl]
    refine List.perm_middle.trans ?_
    exact (hmid.cons ti.queue).trans e3.symm
  have hlenD : ((db1.todos.map
      (fun x => if x.id = tj.id then { x with queue := ti.queue } else x)).filter
        relevant_queued).length = (relevant_queued_list db).length := by
    rw [hD]
    simp only [List.length_append, List.length_cons, List.length_nil]
    omega
  unfold QueueInv
  rw [relevant_queued_list_set_queue_eq, hlenD]
  exact hfinal.trans hinv

-- ---------------------------------------------------------------------------
-- GoodState preservation for each queue operation
-- ---------------------------------------------------------------------------

theorem goodState_normalize (db : DB) (h : GoodState db) : GoodState (normalize_queue db) :=
  ⟨idsNodup_normalize _ h.1, clean_normalize _ h.1 h.2.1, queueInv_normalize _ h.1⟩

theorem goodState_clear_normalize (db : DB) (todo_id : Nat) (h : GoodState db) :
    GoodState (normalize_queue (set_queue db todo_id 0)) := by
  have hnd1 := idsNodup_set_queue db todo_id 0 h.1
  exact ⟨idsNodup_normalize _ hnd1,
    clean_normalize _ hnd1 (clean_set_zero h.2.1),
    queueInv_normalize _ hnd1⟩

theorem goodState_add (db : DB) (i : Nat) (h : GoodState db) :
    GoodState (add_to_queue db i) := by
  cases hg : get_todo db i with
  | none =>
    unfold add_to_queue
    rw [hg]
    exact h
  | some t =>
    rw [add_to_queue_eq db i t hg]
    cases hrel : is_queue_relevant t.status with
    | false =>
      show GoodState (if t.queue = 0 then db else normalize_queue (set_queue db i 0))
      by_cases hq : t.queue = 0
      · rw [if_pos hq]
        exact h
      · rw [if_neg hq]
        exact goodState_clear_normalize db i h
    | true =>
      show GoodState (if 0 < t.queue then db else set_queue db i (get_max_queue db + 1))
      by_cases hq : 0 < t.queue
      · rw [if_pos hq]
        exact h
      · rw [if_neg hq]
        have hq0 : t.queue = 0 := by omega
        have hid : t.id = i := get_todo_id hg
        refine ⟨idsNodup_set_queue db i _ h.1, ?_, ?_⟩
        · rw [← hid]
          exact clean_set_queue h.1 (by rw [hid]; exact hg) hrel h.2.1
        · exact queueInv_enqueue db i t h.1 h.2.2 hg hrel hq0

theorem goodState_remove (db : DB) (i : Nat) (h : GoodState db) :
    GoodState (remove_from_queue db i) := by
  cases hg : get_todo db i with
  | none =>
    unfold remove_from_queue
    rw [hg]
    exact h
  | some t =>
    rw [remove_from_queue_eq db i t hg]
    by_cases hq : t.queue = 0
    · rw [if_pos hq]
      exact h
    · rw [if_neg hq]
      exact goodState_clear_normalize db i h

theorem goodState_moveUp (db : DB) (i : Nat) (h : GoodState db) :
    GoodState (move_queue_up db i) := by
  cases hg : get_todo db i with
  | none =>
    unfold move_queue_up
    rw [hg]
    exact h
  | some t =>
    rw [move_queue_up_eq db i t hg]
    by_cases hb : t.queue ≤ 1
    · rw [if_pos hb]
      exact h
    · rw [if_neg hb]
      cases hrel : is_queue_relevant t.status with
      | false =>
        show GoodState (if t.queue = 0 then db else normalize_queue (set_queue db i 0))
        rw [if_neg (by omega)]
        exact goodState_clear_normalize db i h
      | true =>
        show GoodState (match find_at_pos db (t.queue - 1) with
          | none => normalize_queue db
          | some prev => set_queue (set_queue db prev.id t.queue) i (t.queue - 1))
        cases hf : find_at_pos db (t.queue - 1) with
        | none => exact goodState_normalize db h
        | some v =>
          have hfs := List.find?_some hf
          rcases Bool.and_eq_true_iff.mp hfs with ⟨hv1, hv2⟩
          have hvq : v.queue = t.queue - 1 := by simpa using hv1
          have hvmem : v ∈ db.todos := List.mem_of_find?_eq_some hf
          have hgv : get_todo db v.id = some v :=
            find?_eq_some_of_mem_nodup h.1 hvmem rfl
          have hPt : relevant_queued t = true := by
            unfold relevant_queued
            rw [hrel, Bool.and_true]
            exact decide_eq_true (by omega)
          have hPv : relevant_queued v = true := by
            unfold relevant_queued
            rw [hv2, Bool.and_true]
            exact decide_eq_true (by omega)
          have hne : v.id ≠ t.id := by
            intro heq
            have hvt : v = t := List.inj_on_of_nodup_map h.1 hvmem (get_todo_mem hg) heq
            rw [hvt] at hvq
            omega
          have hid : t.id = i := get_todo_id hg
          subst hid
          rw [← hvq]
          refine ⟨idsNodup_set_queue _ _ _ (idsNodup_set_queue _ _ _ h.1), ?_, ?_⟩
          · have hnd1 : IdsNodup (set_queue db v.id t.queue) :=
              idsNodup_set_queue _ _ _ h.1
            have hgt1 : get_todo (set_queue db v.id t.queue) t.id = some t := by
              rw [get_todo_set_queue, hg]
              show some (if t.id = v.id then { t with queue := t.queue } else t) = some t
              rw [if_neg (fun hcontra => hne hcontra.symm)]
            exact clean_set_queue hnd1 hgt1 hrel
              (clean_set_queue h.1 hgv hv2 h.2.1)
          · exact queueInv_set_swap db v t h.1 h.2.2 hgv hg hne hPv hPt

theorem goodState_moveDown (db : DB) (i : Nat) (h : GoodState db) :
    GoodState (move_queue_down db i) := by
  cases hg : get_todo db i with
  | none =>
    unfold move_queue_down
    rw [hg]
    exact h
  | some t =>
    rw [move_queue_down_eq db i t hg]
    by_cases hb : t.queue = 0
    · rw [if_pos hb]
      exact h
    · rw [if_neg hb]
      cases hrel : is_queue_relevant t.status with
      | false =>
        show GoodState (normalize_queue (set_queue db i 0))
        exact goodState_clear_normalize db i h
      | true =>
        show GoodState (match find_at_pos db (t.queue + 1) with
          | none => normalize_queue db
          | some next => set_queue (set_queue db next.id t.queue) i (t.queue + 1))
        cases hf : find_at_pos db (t.queue + 1) with
        | none => exact goodState_normalize db h
        | some v =>
          have hfs := List.find?_some hf
          rcases Bool.and_eq_true_iff.mp hfs with ⟨hv1, hv2⟩
          have hvq : v.queue = t.queue + 1 := by simpa using hv1
          have hvmem : v ∈ db.todos := List.mem_of_find?_eq_some hf
          have hgv : get_todo db v.id = some v :=
            find?_eq_some_of_mem_nodup h.1 hvmem rfl
          have hPt : relevant_queued t = true := by
            unfold relevant_queued
            rw [hrel, Bool.and_true]
            exact decide_eq_true (by omega)
          have hPv : relevant_queued v = true := by
            unfold relevant_queued
            rw [hv2, Bool.and_true]
            exact decide_eq_true (by omega)
          have hne : v.id ≠ t.id := by
            intro heq
            have hvt : v = t := List.inj_on_of_nodup_map h.1 hvmem (get_todo_mem hg) heq
            rw [hvt] at hvq
            omega
          have hid : t.id = i := get_todo_id hg
          subst hid
          rw [← hvq]
          refine ⟨idsNodup_set_queue _ _ _ (idsNodup_set_queue _ _ _ h.1), ?_, ?_⟩
          · have hnd1 : IdsNodup (set_queue db v.id t.queue) :=
              idsNodup_set_queue _ _ _ h.1
            have hgt1 : get_todo (set_queue db v.id t.queue) t.id = some t := by
              rw [get_todo_set_queue, hg]
              show some (if t.id = v.id then { t with queue := t.queue } else t) = some t
              rw [if_neg (fun hcontra => hne hcontra.symm)]
            exact clean_set_queue hnd1 hgt1 hrel
              (clean_set_queue h.1 hgv hv2 h.2.1)
          · exact queueInv_set_swap db v t h.1 h.2.2 hgv hg hne hPv hPt

theorem goodState_update (db : DB) (i : Nat) (st : TodoStatus) (h : GoodState db) :
    GoodState (update_todo db i { status := some st, queue := none }) := by
  cases hg : get_todo db i with
  | none =>
    unfold update_todo
    rw [hg]
    exact h
  | some t =>
    have hid : t.id = i := get_todo_id hg
    have hndrep : ∀ t2 : Todo, t2.id = i →
        IdsNodup { db with todos := db.todos.map (fun x => if x.id = i then t2 else x) } := by
      intro t2 ht2
      refine idsNodup_map_of_id_preserving (fun x => ?_) h.1
      by_cases hx : x.id = i <;> simp [hx, ht2]
    cases hrel : is_queue_relevant st with
    | false =>
      by_cases hq : t.queue = 0
      · have heq : update_todo db i { status := some st, queue := none }
            = { db with todos := db.todos.map (fun x => if x.id = i then { t with status := st } else x) } := by
          unfold update_todo
          rw [hg]
          simp [hrel, hq]
        rw [heq]
        refine ⟨hndrep _ hid, ?_, ?_⟩
        · exact clean_replace (fun _ => hq) h.2.1
        · refine queueInv_replace_same db i t _ h.1 h.2.2 hg ?_ rfl
          simp [relevant_queued, hq]
      · have heq := update_todo_cleared_eq db i { status := some st, queue := none } t hg
          (by simpa using hrel) (by simpa using hq)
        rw [heq]
        have hnd1 : IdsNodup { db with todos := db.todos.map (fun x => if x.id = i then { t with status := st, queue := 0 } else x) } :=
          hndrep _ hid
        exact ⟨idsNodup_normalize _ hnd1,
          clean_normalize _ hnd1 (clean_replace (fun _ => rfl) h.2.1),
          queueInv_normalize _ hnd1⟩
    | true =>
      have heq : update_todo db i { status := some st, queue := none }
          = { db with todos := db.todos.map (fun x => if x.id = i then { t with status := st } else x) } := by
        unfold update_todo
        rw [hg]
        by_cases hq : t.queue = 0 <;> simp [hrel, hq]
      rw [heq]
      refine ⟨hndrep _ hid, ?_, ?_⟩
      · refine clean_replace (fun hco => ?_) h.2.1
        rw [show ({ t with status := st } : Todo).status = st from rfl, hrel] at hco
        cases hco
      · refine queueInv_replace_same db i t _ h.1 h.2.2 hg ?_ rfl
        by_cases hrt : is_queue_relevant t.status = true
        · simp [relevant_queued, hrel, hrt]
        · have hrf : is_queue_relevant t.status = false := by
            rw [Bool.eq_false_iff]
            exact hrt
          have hq0 : t.queue = 0 := h.2.1 t (get_todo_mem hg) hrf
          simp [relevant_queued, hq0]

theorem goodState_apply_op (db : DB) (op : QueueOp) (h : GoodState db) :
    GoodState (apply_op db op) := by
  cases op with
  | addQ i => exact goodState_add db i h
  | removeQ i => exact goodState_remove db i h
  | moveUp i => exact goodState_moveUp db i h
  | moveDown i => exact goodState_moveDown db i h
  | norm => exact goodState_normalize db h
  | updateStatus i st => exact goodState_update db i st h

theorem goodState_apply_ops :
    ∀ (ops : List QueueOp) (db : DB), GoodState db → GoodState (apply_ops db ops) := by
  intro ops
  induction ops with
  | nil => intro db h; exact h
  | cons op ops ih =>
    intro db h
    exact ih _ (goodState_apply_op db op h)

-- ---------------------------------------------------------------------------
-- Claim C1
-- ---------------------------------------------------------------------------

/-- C1: from any normalized store (unique row ids, completed/cancelled rows
at queue 0, queued active rows numbered 1..N — the state init_db's cleanup
establishes), every sequence of queue operations (add_to_queue,
remove_from_queue, move_queue_up, move_queue_down, normalize_queue, and
status-changing update_todo) leads to a store whose relevant queued rows
carry, as a multiset, exactly the queue values {1, ..., N}. -/
theorem spec_C1 (db : DB) (ops : List QueueOp) (hnd : IdsNodup db)
    (hnorm : NormalizedState db) : QueueInv (apply_ops db ops) :=
  (goodState_apply_ops ops db ⟨hnd, hnorm.1, hnorm.2⟩).2.2

/-- Witness for C1: from the clean two-task store, enqueue both tasks, then
complete task 1 — the invariant still holds for the resulting store. -/
theorem spec_C1_witness :
    QueueInv (apply_ops exTwoClean
      [QueueOp.addQ 1, QueueOp.addQ 2, QueueOp.updateStatus 1 TodoStatus.completed]) :=
  spec_C1 exTwoClean _ (by decide) ⟨by decide, by decide⟩

/-- The init_db cleanup yields a normalized state on any store with unique
row ids. -/
theorem init_queue_cleanup_normalized (db : DB) (hnd : IdsNodup db) :
    NormalizedState (init_queue_cleanup db) := by
  have hnd0 : IdsNodup { db with todos := db.todos.map (fun t => if is_queue_relevant t.status then t else { t with queue := 0 }) } := by
    refine idsNodup_map_of_id_preserving (fun x => ?_) hnd
    by_cases hx : is_queue_relevant x.status <;> simp [hx]
  have hc0 : CleanIrrelevant { db with todos := db.todos.map (fun t => if is_queue_relevant t.status then t else { t with queue := 0 }) } := by
    intro u hu hust
    rcases List.mem_map.mp hu with ⟨x, _, hxu⟩
    by_cases hx : is_queue_relevant x.status = true
    · rw [if_pos hx] at hxu
      rw [← hxu] at hust
      rw [hust] at hx
      cases hx
    · have hx2 : is_queue_relevant x.status = false := by
        rw [Bool.eq_false_iff]
        exact hx
      rw [if_neg (by rw [hx2]; simp)] at hxu
      rw [← hxu]
  exact ⟨clean_normalize _ hnd0 hc0, queueInv_normalize _ hnd0⟩

-- ---------------------------------------------------------------------------
-- Claim C9
-- ---------------------------------------------------------------------------

/-- The successful insert path of create_dependency, spelled out. -/
theorem create_dependency_new (db : DB) (a b : Nat) (ta tb : Todo) (hab : a ≠ b)
    (hta : get_todo db a = some ta) (htb : get_todo db b = some tb)
    (hcf : would_create_cycle db.deps b a = false)
    (hfind : db.deps.find? (fun d => d.todo_id == a && d.depends_on_id == b) = none) :
    create_dependency db a b =
      DepResult.ok
        { db with deps := db.deps ++ [⟨db.nextDepId, a, b⟩],
                  nextDepId := db.nextDepId + 1 }
        ⟨db.nextDepId, a, b⟩ := by
  unfold create_dependency
  rw [if_neg hab, hta, htb]
  simp [hcf, hfind]

/-- C9: running normalize_queue twice in a row produces no further change —
the second run is the identity and its changed flag stays false, so no row is
written — and calling create_dependency a second time with the same
(dependent, prerequisite) pair returns the same edge with the store unchanged
(no duplicate row, no error). -/
theorem spec_C9 (db db1 : DB) (a b : Nat) (e : Dep) (hnd : IdsNodup db)
    (hok : create_dependency db a b = DepResult.ok db1 e) :
    (normalize_queue (normalize_queue db) = normalize_queue db ∧
      normalize_changed (normalize_queue db) = false) ∧
    create_dependency db1 a b = DepResult.ok db1 e := by
  refine ⟨⟨normalize_queue_idem db hnd, normalize_changed_after db hnd⟩, ?_⟩
  unfold create_dependency at hok
  by_cases hab : a = b
  · rw [if_pos hab] at hok
    cases hok
  rw [if_neg hab] at hok
  cases hta : get_todo db a with
  | none =>
    rw [hta] at hok
    simp at hok
  | some ta =>
  cases htb : get_todo db b with
  | none =>
    rw [hta, htb] at hok
    simp at hok
  | some tb =>
  rw [hta, htb] at hok
  by_cases hc : would_create_cycle db.deps b a = true
  · simp [hc] at hok
  have hcf : would_create_cycle db.deps b a = false := by
    rw [Bool.eq_false_iff]
    exact hc
  have hreach : ¬ DepReach db.deps b a := by
    intro hr
    rw [(would_create_cycle_iff _ _ _).mpr hr] at hcf
    cases hcf
  simp only [hcf, Bool.false_eq_true, if_false] at hok
  cases hfind : db.deps.find? (fun d => d.todo_id == a && d.depends_on_id == b) with
  | some e0 =>
    rw [hfind] at hok
    simp only [DepResult.ok.injEq] at hok
    obtain ⟨rfl, rfl⟩ := hok
    unfold create_dependency
    rw [if_neg hab, hta, htb]
    simp [hcf, hfind]
  | none =>
    rw [hfind] at hok
    simp only [DepResult.ok.injEq] at hok
    obtain ⟨rfl, rfl⟩ := hok
    have hta1 : get_todo { db with deps := db.deps ++ [⟨db.nextDepId, a, b⟩], nextDepId := db.nextDepId + 1 } a = some ta := hta
    have htb1 : get_todo { db with deps := db.deps ++ [⟨db.nextDepId, a, b⟩], nextDepId := db.nextDepId + 1 } b = some tb := htb
    have hcf2 : would_create_cycle (db.deps ++ [⟨db.nextDepId, a, b⟩]) b a = false := by
      rw [Bool.eq_false_iff]
      intro hc2
      exact hreach (depReach_append_edge_to ((would_create_cycle_iff _ _ _).mp hc2))
    have hfind2 : (db.deps ++ [(⟨db.nextDepId, a, b⟩ : Dep)]).find?
        (fun d => d.todo_id == a && d.depends_on_id == b) = some ⟨db.nextDepId, a, b⟩ := by
      rw [List.find?_append, hfind]
      simp
    unfold create_dependency
    rw [if_neg hab, hta1, htb1]
    simp [hcf2, hfind2]

/-- Witness for C9: normalize is idempotent on the clean two-task store, and
after adding the edge (1 depends on 2) a second identical call returns the
same edge row (id 1) with the store unchanged. -/
theorem spec_C9_witness :
    (normalize_queue (normalize_queue exTwoClean) = normalize_queue exTwoClean ∧
      normalize_changed (normalize_queue exTwoClean) = false) ∧
    create_dependency exEdgeNew 1 2 = DepResult.ok exEdgeNew ⟨1, 1, 2⟩ :=
  spec_C9 exTwoClean exEdgeNew 1 2 ⟨1, 1, 2⟩ (by decide)
    (create_dependency_new exTwoClean 1 2 ⟨1, .pending, 0, none, none⟩
      ⟨2, .pending, 0, none, none⟩ (by decide) rfl rfl
      (would_create_cycle_nil (by decide)) rfl)

-- ---------------------------------------------------------------------------
-- Claim C3
-- ---------------------------------------------------------------------------

/-- Counterexample to C3: in a store with tasks 1 (queue 1) and 2 (queue 2)
where task 2 depends on task 1, deleting task 1 leaves the incoming
dependency row (2 depends on 1) in place and does not renumber, so task 2
keeps queue value 2 instead of 1. -/
theorem spec_C3_counterexample :
    get_todo (delete_todo exDelete 1) 1 = none ∧
    (delete_todo exDelete 1).deps = [⟨1, 2, 1⟩] ∧
    (relevant_queued_list (delete_todo exDelete 1)).map Todo.queue = [2] := by
  decide

/-- C3 amended: delete_todo on an existing task removes the task (and its
parent_id descendants) and, through the ORM cascade, only its OUTGOING
dependency rows (where a deleted task is the dependent); INCOMING rows (where
the deleted task is the prerequisite) survive as dangling references when
their dependent is not itself deleted, every surviving todo row is stored
unchanged, and no queue renumbering is performed. -/
theorem spec_C3 (db : DB) (todo_id : Nat) (t : Todo)
    (ht : get_todo db todo_id = some t) :
    get_todo (delete_todo db todo_id) todo_id = none ∧
    (∀ d ∈ (delete_todo db todo_id).deps, d.todo_id ∉ deleted_ids db todo_id) ∧
    (∀ d ∈ db.deps, d.todo_id ∉ deleted_ids db todo_id →
      d ∈ (delete_todo db todo_id).deps) ∧
    (∀ u ∈ (delete_todo db todo_id).todos, u ∈ db.todos) := by
  have hdel : delete_todo db todo_id =
      { db with
        todos := db.todos.filter (fun u => !(deleted_ids db todo_id).contains u.id),
        deps := db.deps.filter (fun d => !(deleted_ids db todo_id).contains d.todo_id) } := by
    unfold delete_todo
    rw [ht]
  rw [hdel]
  refine ⟨?_, ?_, ?_, ?_⟩
  · rw [get_todo, List.find?_eq_none]
    intro u hu hbeq
    rcases List.mem_filter.mp hu with ⟨_, hcond⟩
    have huid : u.id = todo_id := by simpa using hbeq
    have hnotin : u.id ∉ deleted_ids db todo_id := by simpa using hcond
    rw [huid] at hnotin
    exact hnotin (mem_deleted_ids db todo_id)
  · intro d hd
    rcases List.mem_filter.mp hd with ⟨_, hcond⟩
    simpa using hcond
  · intro d hd hnotin
    exact List.mem_filter.mpr ⟨hd, by simpa using hnotin⟩
  · intro u hu
    exact List.mem_of_mem_filter hu

/-- Witness for C3 amended: after deleting task 1, the task is gone but the
incoming edge (2 depends on 1) is still stored. -/
theorem spec_C3_witness :
    get_todo (delete_todo exDelete 1) 1 = none ∧
    (⟨1, 2, 1⟩ : Dep) ∈ (delete_todo exDelete 1).deps :=
  ⟨(spec_C3 exDelete 1 ⟨1, .pending, 1, none, none⟩ rfl).1,
   (spec_C3 exDelete 1 ⟨1, .pending, 1, none, none⟩ rfl).2.2.1 ⟨1, 2, 1⟩
     (List.mem_singleton_self _) (by decide)⟩

-- ---------------------------------------------------------------------------
-- Claim C7
-- ---------------------------------------------------------------------------

/-- Counterexample to C7: a completed task that still carries queue value 1 is
NOT cleared by move_queue_up — the queue <= 1 early return fires before the
defensive status check, so the call is a no-op and the stale queue value 1
survives on a status-irrelevant task. -/
theorem spec_C7_counterexample :
    move_queue_up exStaleTop 1 = exStaleTop ∧
    get_todo exStaleTop 1
      = some { id := 1, status := .completed, queue := 1, task_size := none,
               parent_id := none } ∧
    is_queue_relevant TodoStatus.completed = false := by
  refine ⟨?_, rfl, rfl⟩
  unfold move_queue_up
  rfl

/-- C7 amended: move_up at position 1 and move_down at the last position are
no-ops; the defensive clear-and-normalize path fires for move_down on every
status-irrelevant task with queue > 0, but for move_up only when queue > 1 —
move_up on a status-irrelevant task with queue = 1 is a no-op that leaves the
stale value (the boundary early-return precedes the status check). -/
theorem spec_C7 (db : DB) (todo_id : Nat) (t : Todo)
    (hnd : IdsNodup db) (hinv : QueueInv db) (ht : get_todo db todo_id = some t) :
    (t.queue = 1 → move_queue_up db todo_id = db) ∧
    (is_queue_relevant t.status = false → 1 < t.queue →
      move_queue_up db todo_id = normalize_queue (set_queue db todo_id 0)) ∧
    (is_queue_relevant t.status = true → t.queue = (relevant_queued_list db).length →
      move_queue_down db todo_id = db) ∧
    (is_queue_relevant t.status = false → 0 < t.queue →
      move_queue_down db todo_id = normalize_queue (set_queue db todo_id 0)) := by
  refine ⟨?_, ?_, ?_, ?_⟩
  · intro hq
    rw [move_queue_up_eq db todo_id t ht, if_pos (by omega : t.queue ≤ 1)]
  · intro hirr hq
    rw [move_queue_up_eq db todo_id t ht, if_neg (by omega), hirr]
    show (if t.queue = 0 then db else normalize_queue (set_queue db todo_id 0)) = _
    rw [if_neg (by omega)]
  · intro hrel hq
    by_cases hq0 : t.queue = 0
    · rw [move_queue_down_eq db todo_id t ht, if_pos hq0]
    · rw [move_queue_down_eq db todo_id t ht, if_neg hq0, hrel]
      have hfind : find_at_pos db (t.queue + 1) = none := by
        rw [find_at_pos, List.find?_eq_none]
        intro u hu hcond
        rcases Bool.and_eq_true_iff.mp hcond with ⟨hq1, hst1⟩
        have huq : u.queue = t.queue + 1 := by simpa using hq1
        have hurel : relevant_queued u = true := by
          unfold relevant_queued
          rw [hst1, huq]
          simp
        have humem : u ∈ relevant_queued_list db :=
          List.mem_filter.mpr ⟨hu, hurel⟩
        have huval : u.queue ∈ (relevant_queued_list db).map Todo.queue :=
          List.mem_map_of_mem Todo.queue humem
        have := hinv.subset huval
        rw [List.mem_range'_1] at this
        omega
      show (match find_at_pos db (t.queue + 1) with
        | none => normalize_queue db
        | some next => set_queue (set_queue db next.id t.queue) todo_id (t.queue + 1)) = db
      rw [hfind]
      show normalize_queue db = db
      exact normalize_queue_fixpoint db hnd hinv
  · intro hirr hq
    rw [move_queue_down_eq db todo_id t ht, if_neg (by omega), hirr]

/-- Witness for C7 amended at a single queued pending task: move_up at
position 1 is a no-op and move_down at the last (only) position is a no-op. -/
theorem spec_C7_witness :
    ((1 : Nat) = 1 → move_queue_up exSingleQueued 1 = exSingleQueued) ∧
    (is_queue_relevant TodoStatus.pending = false → 1 < 1 →
      move_queue_up exSingleQueued 1 = normalize_queue (set_queue exSingleQueued 1 0)) ∧
    (is_queue_relevant TodoStatus.pending = true →
      (1 : Nat) = (relevant_queued_list exSingleQueued).length →
      move_queue_down exSingleQueued 1 = exSingleQueued) ∧
    (is_queue_relevant TodoStatus.pending = false → 0 < 1 →
      move_queue_down exSingleQueued 1 = normalize_queue (set_queue exSingleQueued 1 0)) :=
  spec_C7 exSingleQueued 1 ⟨1, .pending, 1, none, none⟩ (by decide) (by decide) rfl

-- ---------------------------------------------------------------------------
-- Claim C8
-- ---------------------------------------------------------------------------

/-- Counterexample to C8: remove_from_queue on an existing task whose queue is
already 0 returns without running normalize_queue, so in a store with a
pre-existing gap the remaining relevant queued tasks are NOT contiguous 1..N
after the call (here they stay at queue value 5, with N = 1). -/
theorem spec_C8_counterexample :
    remove_from_queue exGapped 1 = exGapped ∧
    (relevant_queued_list exGapped).map Todo.queue = [5] := by
  refine ⟨?_, by decide⟩
  unfold remove_from_queue
  rfl

/-- C8 amended: remove_from_queue on an existing task with queue > 0 (with no
status check) clears the value and normalizes — afterwards the remaining
relevant queued rows are numbered 1..N and the row itself is stored with
queue 0; on a task whose queue is already 0 the call returns the store
unchanged (normalize_queue is not run). -/
theorem spec_C8 (db : DB) (todo_id : Nat) (t : Todo)
    (hnd : IdsNodup db) (ht : get_todo db todo_id = some t) :
    (0 < t.queue →
      remove_from_queue db todo_id = normalize_queue (set_queue db todo_id 0) ∧
      QueueInv (remove_from_queue db todo_id) ∧
      get_todo (remove_from_queue db todo_id) todo_id = some { t with queue := 0 }) ∧
    (t.queue = 0 → remove_from_queue db todo_id = db) := by
  constructor
  · intro hq
    have heq : remove_from_queue db todo_id = normalize_queue (set_queue db todo_id 0) := by
      rw [remove_from_queue_eq db todo_id t ht, if_neg (by omega)]
    refine ⟨heq, ?_, ?_⟩
    · rw [heq]
      exact queueInv_normalize _ (idsNodup_set_queue db todo_id 0 hnd)
    · rw [heq]
      exact get_todo_clear_normalize db todo_id t hnd ht
  · intro hq
    rw [remove_from_queue_eq db todo_id t ht, if_pos hq]

/-- Witness for C8 amended on a gapped singleton queue: removing the queued
task clears it and renumbers (vacuously to the empty queue), and the row is
stored with queue 0. -/
theorem spec_C8_witness :
    (remove_from_queue exPending3 1 = normalize_queue (set_queue exPending3 1 0) ∧
      QueueInv (remove_from_queue exPending3 1) ∧
      get_todo (remove_from_queue exPending3 1)
          1 = some { id := 1, status := .pending, queue := 0, task_size := none,
                     parent_id := none }) :=
  (spec_C8 exPending3 1 ⟨1, .pending, 3, none, none⟩ (by decide) rfl).1 (by decide)

end TodoTracker
